import Mathlib

/-!
Shallow embedding of the Kaleidoscope-style REPL front end in `src/lexer.cpp`:
lexer, operator-precedence parser, AST, code generator (LLVM IR is modelled as
an explicit list of basic blocks of instructions), function-prototype registry,
and the session driver loop.

Modelling conventions:
* C `double` values are modelled as `ℚ`.  Every numeric fact proved here
  (`10-2-3 = 5`, `strtod "1.2.3" = 1.2 ≠ 0`, the `for` result `0.0`) involves
  only small decimal literals that are exactly representable in IEEE double,
  so no rounding behaviour is relevant to any claim.
* The input character stream is a `List Char`; C `getchar` returning `EOF` is
  modelled by `Option Char` with `none` for `EOF`.
* `std::map` (`BinopPrecedence`, `NamedValues`, `FunctionProtos`) is modelled
  as an association list.  `operator[]`'s default-insertion behaviour is
  modelled faithfully (`opIndex`, `nvIndex`).  `std::map` keeps keys sorted
  while the model appends new keys at the end; no claim depends on key order,
  only on lookups and on the key set.
* Functions whose C++ loop consumes input on every iteration are defined by
  structural recursion on the input; the lexer's comment recursion and the
  mutually recursive parser take an explicit fuel parameter (the C++ recursion
  depth is bounded by the input length, so any sufficiently large fuel gives
  the behaviour of the source).
-/

/-! ### C character classification (ASCII, as used by the source) -/

/-- C `isspace` (ASCII): space, \t, \n, \v, \f, \r. -/
def cIsSpace (c : Char) : Bool := c.toNat = 32 || (9 ≤ c.toNat && c.toNat ≤ 13)

/-- C `isdigit` (ASCII). -/
def cIsDigit (c : Char) : Bool := 48 ≤ c.toNat && c.toNat ≤ 57

/-- C `isalpha` (ASCII). -/
def cIsAlpha (c : Char) : Bool :=
  (65 ≤ c.toNat && c.toNat ≤ 90) || (97 ≤ c.toNat && c.toNat ≤ 122)

/-- C `isalnum` (ASCII). -/
def cIsAlnum (c : Char) : Bool := cIsAlpha c || cIsDigit c

/-- The character class accumulated into a number token: `isdigit(c) || c == '.'`. -/
def cIsNum (c : Char) : Bool := cIsDigit c || c = '.'

/-! ### Tokens (`enum Token` plus the payload-carrying globals) -/

/-- A lexer token.  The C enum values `tok_identifier`/`tok_number` carry their
payload through the globals `IdentifierStr`/`NumVal`; the model attaches the
payload to the token.  `tok_ext` models `tok_extern` (renamed in the model).
Unknown bytes are returned as their character (`tok_char`). -/
inductive Token where
  | tok_eof
  | tok_def
  | tok_ext
  | tok_identifier (s : String)
  | tok_number (v : ℚ)
  | tok_if
  | tok_then
  | tok_else
  | tok_for
  | tok_in
  | tok_char (c : Char)
deriving DecidableEq

/-! ### `strtod` model -/

/-- Numeric value of a digit string. -/
def natOfDigits (l : List Char) : ℕ :=
  l.foldl (fun a c => a * 10 + (c.toNat - 48)) 0

/-- Modelled from the standard C library: `strtod` restricted to the strings
the lexer can pass it, i.e. nonempty runs over `[0-9.]`.  `strtod` converts
the longest valid leading decimal ("digits, optional point, digits; at least
one digit"), and returns `0` when no conversion can be performed (e.g. on
`"."`).  Signs, exponents and hex forms cannot occur in a `[0-9.]` run
(an `e`/`E` would have ended the lexer's accumulation loop). -/
def strtodM (s : List Char) : ℚ :=
  let ip := s.takeWhile cIsDigit
  let r1 := s.dropWhile cIsDigit
  match r1 with
  | '.' :: r2 =>
      let fp := r2.takeWhile cIsDigit
      if ip.isEmpty && fp.isEmpty then 0
      else mkRat (natOfDigits ip * 10 ^ fp.length + natOfDigits fp) (10 ^ fp.length)
  | _ => mkRat (natOfDigits ip) 1

/-! ### Lexer (`gettok`) -/

/-- The whitespace-skipping loop at the top of `gettok`:
`while (isspace(LastChar)) LastChar = getchar();`. -/
def skipSpaces : Option Char → List Char → Option Char × List Char
  | some c, inp =>
      if cIsSpace c then
        match inp with
        | [] => (none, [])
        | d :: rest => skipSpaces (some d) rest
      else (some c, inp)
  | none, inp => (none, inp)

/-- An accumulation loop `while (p (LastChar = getchar())) acc += LastChar;`:
returns the accumulated characters, the new `LastChar`, and the rest of the
input. -/
def takeRun (p : Char → Bool) : List Char → List Char × Option Char × List Char
  | [] => ([], none, [])
  | c :: rest =>
      if p c then
        let t := takeRun p rest
        (c :: t.1, t.2.1, t.2.2)
      else ([], some c, rest)

/-- The comment loop: `do { LastChar = getchar(); } while (LastChar != EOF &&
LastChar != '\n' && LastChar != '\r');`. -/
def skipComment : List Char → Option Char × List Char
  | [] => (none, [])
  | c :: rest => if c = '\n' || c = '\r' then (some c, rest) else skipComment rest

/-- Keyword classification of an accumulated identifier. -/
def classifyIdent (s : String) : Token :=
  if s = "def" then .tok_def
  else if s = "extern" then .tok_ext
  else if s = "if" then .tok_if
  else if s = "then" then .tok_then
  else if s = "else" then .tok_else
  else if s = "for" then .tok_for
  else if s = "in" then .tok_in
  else .tok_identifier s

/-- One step of `gettok`; `k` is the continuation used by the tail-recursion
after a comment line (`return gettok();`). -/
def gettokStep (k : Option Char → List Char → Token × Option Char × List Char)
    (lc : Option Char) (inp : List Char) : Token × Option Char × List Char :=
  let s0 := skipSpaces lc inp
  match s0.1 with
  | none => (.tok_eof, none, s0.2)
  | some c =>
      if cIsAlpha c then
        let t := takeRun cIsAlnum s0.2
        (classifyIdent (String.mk (c :: t.1)), t.2.1, t.2.2)
      else if cIsNum c then
        let t := takeRun cIsNum s0.2
        (.tok_number (strtodM (c :: t.1)), t.2.1, t.2.2)
      else if c = '#' then
        let t := skipComment s0.2
        match t.1 with
        | none => (.tok_eof, none, t.2)
        | some d => k (some d) t.2
      else
        match s0.2 with
        | [] => (.tok_char c, none, [])
        | d :: rest => (.tok_char c, some d, rest)

/-- `gettok`: state is `LastChar` (`none` = EOF) and the remaining input.
Fuel only feeds the tail-recursion after a comment line; one unit of fuel per
comment line suffices, and the digit/identifier/operator branches need none. -/
def gettok : Nat → Option Char → List Char → Token × Option Char × List Char
  | 0 => gettokStep fun lc inp => (.tok_eof, lc, inp)
  | fuel + 1 => gettokStep (gettok fuel)

/-! ### AST (`ExprAST` hierarchy, `PrototypeAST`, `FunctionAST`) -/

/-!
The expression AST: the source's virtual class hierarchy is a closed set of
variants, modelled as one inductive; constructor names follow the source
classes (including the source's spelling `CallExprAst`).  `ForExprAST`'s
`step` is optional (`OptExprAST`) and a call's arguments are a sequence
(`ExprList`); both are part of the mutual family so that the code generator
is a plain structural recursion.
-/
mutual
/-- An expression node (`ExprAST` and its subclasses in the source). -/
inductive ExprAST where
  | NumberExprAST (val : ℚ)
  | VariableExprAST (name : String)
  | BinaryExprAST (op : Char) (lhs rhs : ExprAST)
  | CallExprAst (callee : String) (args : ExprList)
  | IfExprAST (cond thenE elseE : ExprAST)
  | ForExprAST (varName : String) (start endE : ExprAST) (step : OptExprAST)
      (body : ExprAST)

/-- An optional expression (the `for` step clause). -/
inductive OptExprAST where
  | noneE
  | someE (e : ExprAST)

/-- A sequence of expressions (call arguments). -/
inductive ExprList where
  | nil
  | cons (head : ExprAST) (tail : ExprList)
end

/-- Number of arguments in a call-argument sequence. -/
def ExprList.length : ExprList → Nat
  | .nil => 0
  | .cons _ t => 1 + t.length

/-- Convert a `List` of parsed argument expressions into an `ExprList`. -/
def ExprList.ofList : List ExprAST → ExprList
  | [] => .nil
  | a :: rest => .cons a (ExprList.ofList rest)

/-- Convert the parser's optional step expression. -/
def OptExprAST.ofOption : Option ExprAST → OptExprAST
  | none => .noneE
  | some e => .someE e

/-- A function prototype: name and argument names. -/
structure PrototypeAST where
  name : String
  args : List String
deriving DecidableEq

/-- A function definition: prototype plus body. -/
structure FunctionAST where
  proto : PrototypeAST
  body : ExprAST

/-! ### Parser state

`CurTok` is the one-token lookahead; `rest` is the stream of tokens still to
be pulled from the lexer (`gettok` yields `tok_eof` forever once the input is
exhausted, modelled by `advanceP` on an empty `rest`).  `BinopPrecedence` is
part of the parser state because `GetTokPrecedence`'s `std::map::operator[]`
lookup can mutate it (default-inserting a 0 entry). -/

/-- The `BinopPrecedence` map: single-character operator → precedence. -/
abbrev OpMap := List (Char × Int)

/-- Plain lookup in the operator table. -/
def opLookup : OpMap → Char → Option Int
  | [], _ => none
  | (k, v) :: rest, c => if k = c then some v else opLookup rest c

/-- `std::map::operator[]`: returns the mapped value, default-inserting a `0`
entry when the key is absent.  (`std::map` keeps keys ordered; the model
appends, which no claim can distinguish.) -/
def opIndex (m : OpMap) (c : Char) : Int × OpMap :=
  match opLookup m c with
  | some v => (v, m)
  | none => (0, m ++ [(c, 0)])

structure PState where
  cur : Token
  rest : List Token
  ops : OpMap
deriving DecidableEq

/-- `getNextToken`: pull the next token into `CurTok`.  At the end of the
stream the lexer keeps returning `tok_eof`. -/
def advanceP (s : PState) : PState :=
  match s.rest with
  | [] => { s with cur := .tok_eof }
  | t :: ts => { s with cur := t, rest := ts }

/-- `GetTokPrecedence`: `-1` unless `CurTok` is an ASCII character whose
`BinopPrecedence[]` value is positive.  The `BinopPrecedence[CurTok]` lookup
uses `operator[]` and can therefore insert a `0` entry. -/
def GetTokPrecedence (s : PState) : Int × PState :=
  match s.cur with
  | .tok_char c =>
      if c.toNat ≤ 127 then
        let t := opIndex s.ops c
        (if t.1 ≤ 0 then -1 else t.1, { s with ops := t.2 })
      else (-1, s)
  | _ => (-1, s)

/-- `ParseNumberExpr` (only ever entered with `CurTok = tok_number`; the
value is `NumVal`, carried on the token in the model). -/
def ParseNumberExpr (s : PState) : Option ExprAST × PState :=
  match s.cur with
  | .tok_number v => (some (.NumberExprAST v), advanceP s)
  | _ => (none, s)

/-- Tail of the prototype argument-name loop, structural on the remaining
token stream (the operator table rides along unchanged). -/
def protoArgsGo (ops : OpMap) : List String → List Token → List String × PState
  | acc, [] => (acc, ⟨.tok_eof, [], ops⟩)
  | acc, t :: ts =>
      match t with
      | .tok_identifier n => protoArgsGo ops (acc ++ [n]) ts
      | _ => (acc, ⟨t, ts, ops⟩)

/-- The prototype argument-name loop:
`while (getNextToken() == tok_identifier) ArgNames.push_back(IdentifierStr);`. -/
def protoArgs (acc : List String) (s : PState) : List String × PState :=
  protoArgsGo s.ops acc s.rest

/-- `ParsePrototype`: `id '(' id* ')'`. -/
def ParsePrototype (s : PState) : Option PrototypeAST × PState :=
  match s.cur with
  | .tok_identifier fnName =>
      let s1 := advanceP s
      if s1.cur ≠ .tok_char '(' then (none, s1)
      else
        let t := protoArgs [] s1
        if t.2.cur ≠ .tok_char ')' then (none, t.2)
        else (some ⟨fnName, t.1⟩, advanceP t.2)
  | _ => (none, s)

mutual

/-- `ParseExpression ::= primary binoprhs`. -/
def ParseExpression : Nat → PState → Option ExprAST × PState
  | 0, s => (none, s)
  | f + 1, s =>
      match ParsePrimary f s with
      | (none, s1) => (none, s1)
      | (some lhs, s1) => ParseBinOpRHS f 0 lhs s1

/-- `ParsePrimary`: dispatch on `CurTok`; any other token is the syntax error
"unknow token when expecting an expression". -/
def ParsePrimary : Nat → PState → Option ExprAST × PState
  | 0, s => (none, s)
  | f + 1, s =>
      match s.cur with
      | .tok_identifier _ => ParseIdentifierExpr f s
      | .tok_number _ => ParseNumberExpr s
      | .tok_char '(' => ParseParenExpr f s
      | .tok_if => ParseIfExpr f s
      | .tok_for => ParseForExpr f s
      | _ => (none, s)

/-- `ParseParenExpr ::= '(' expression ')'`. -/
def ParseParenExpr : Nat → PState → Option ExprAST × PState
  | 0, s => (none, s)
  | f + 1, s =>
      let s1 := advanceP s
      match ParseExpression f s1 with
      | (none, s2) => (none, s2)
      | (some v, s2) =>
          if s2.cur ≠ .tok_char ')' then (none, s2)
          else (some v, advanceP s2)

/-- `ParseIdentifierExpr ::= id | id '(' (expr (',' expr)*)? ')'`. -/
def ParseIdentifierExpr : Nat → PState → Option ExprAST × PState
  | 0, s => (none, s)
  | f + 1, s =>
      match s.cur with
      | .tok_identifier idName =>
          let s1 := advanceP s
          if s1.cur ≠ .tok_char '(' then (some (.VariableExprAST idName), s1)
          else
            let s2 := advanceP s1
            if s2.cur = .tok_char ')' then (some (.CallExprAst idName .nil), advanceP s2)
            else
              match ParseCallArgs f [] s2 with
              | (none, s3) => (none, s3)
              | (some args, s3) => (some (.CallExprAst idName (.ofList args)), advanceP s3)
      | _ => (none, s)

/-- The call-argument loop: parse an expression, stop at `')'`, expect `','`
otherwise (error "Expect ... in argument list"). -/
def ParseCallArgs : Nat → List ExprAST → PState → Option (List ExprAST) × PState
  | 0, _, s => (none, s)
  | f + 1, acc, s =>
      match ParseExpression f s with
      | (none, s1) => (none, s1)
      | (some a, s1) =>
          if s1.cur = .tok_char ')' then (some (acc ++ [a]), s1)
          else if s1.cur ≠ .tok_char ',' then (none, s1)
          else ParseCallArgs f (acc ++ [a]) (advanceP s1)

/-- `ParseIfExpr ::= 'if' expr 'then' expr 'else' expr`. -/
def ParseIfExpr : Nat → PState → Option ExprAST × PState
  | 0, s => (none, s)
  | f + 1, s =>
      let s1 := advanceP s
      match ParseExpression f s1 with
      | (none, s2) => (none, s2)
      | (some c, s2) =>
          if s2.cur ≠ .tok_then then (none, s2)
          else
            match ParseExpression f (advanceP s2) with
            | (none, s3) => (none, s3)
            | (some t, s3) =>
                if s3.cur ≠ .tok_else then (none, s3)
                else
                  match ParseExpression f (advanceP s3) with
                  | (none, s4) => (none, s4)
                  | (some e, s4) => (some (.IfExprAST c t e), s4)

/-- `ParseForExpr ::= 'for' id '=' expr ',' expr (',' expr)? 'in' expr`. -/
def ParseForExpr : Nat → PState → Option ExprAST × PState
  | 0, s => (none, s)
  | f + 1, s =>
      let s1 := advanceP s
      match s1.cur with
      | .tok_identifier idName =>
          let s2 := advanceP s1
          if s2.cur ≠ .tok_char '=' then (none, s2)
          else
            match ParseExpression f (advanceP s2) with
            | (none, s3) => (none, s3)
            | (some st, s3) =>
                if s3.cur ≠ .tok_char ',' then (none, s3)
                else
                  match ParseExpression f (advanceP s3) with
                  | (none, s4) => (none, s4)
                  | (some en, s4) =>
                      match
                        (if s4.cur = .tok_char ',' then
                          match ParseExpression f (advanceP s4) with
                          | (none, s5) => (none, (none, s5))
                          | (some sp, s5) => (some sp, (some (), s5))
                        else (none, (some (), s4)) :
                          Option ExprAST × (Option Unit × PState)) with
                      | (_, (none, s5)) => (none, s5)
                      | (sp, (some _, s5)) =>
                          if s5.cur ≠ .tok_in then (none, s5)
                          else
                            match ParseExpression f (advanceP s5) with
                            | (none, s6) => (none, s6)
                            | (some bd, s6) =>
                                (some (.ForExprAST idName st en (.ofOption sp) bd), s6)
      | _ => (none, s1)

/-- `ParseBinOpRHS`: the precedence-climbing loop.  Modelled with the loop as
tail recursion (fuel bounds both the loop and the recursion depth). -/
def ParseBinOpRHS : Nat → Int → ExprAST → PState → Option ExprAST × PState
  | 0, _, _, s => (none, s)
  | f + 1, exprPrec, lhs, s =>
      let t := GetTokPrecedence s
      if t.1 < exprPrec then (some lhs, t.2)
      else
        match t.2.cur with
        | .tok_char opc =>
            let s2 := advanceP t.2
            match ParsePrimary f s2 with
            | (none, s3) => (none, s3)
            | (some rhs0, s3) =>
                let t2 := GetTokPrecedence s3
                if t.1 < t2.1 then
                  match ParseBinOpRHS f (t.1 + 1) rhs0 t2.2 with
                  | (none, s5) => (none, s5)
                  | (some rhs1, s5) =>
                      ParseBinOpRHS f exprPrec (.BinaryExprAST opc lhs rhs1) s5
                else ParseBinOpRHS f exprPrec (.BinaryExprAST opc lhs rhs0) t2.2
        | _ => (none, t.2)

end

/-- `ParseDefinition ::= 'def' prototype expression`. -/
def ParseDefinition (f : Nat) (s : PState) : Option FunctionAST × PState :=
  let s1 := advanceP s
  match ParsePrototype s1 with
  | (none, s2) => (none, s2)
  | (some p, s2) =>
      match ParseExpression f s2 with
      | (none, s3) => (none, s3)
      | (some e, s3) => (some ⟨p, e⟩, s3)

/-- `ParseExtern ::= 'extern' prototype` (the source's ParseExtern; renamed
because of the model's naming conventions). -/
def ParseExt (s : PState) : Option PrototypeAST × PState :=
  ParsePrototype (advanceP s)

/-- `ParseTopLevelExpr`: wrap a bare expression in an anonymous nullary
function named `__anon_expr`. -/
def ParseTopLevelExpr (f : Nat) (s : PState) : Option FunctionAST × PState :=
  match ParseExpression f s with
  | (none, s1) => (none, s1)
  | (some e, s1) => (some ⟨⟨"__anon_expr", []⟩, e⟩, s1)

/-- The operator table seeded by `main`. -/
def seededOps : OpMap :=
  [('<', 10), ('>', 10), ('+', 20), ('-', 20), ('/', 40), ('*', 40)]

/-! ### The backend IR model

The code generator targets the LLVM IRBuilder interface.  The model records
exactly what the source emits: a list of basic blocks, each holding
instructions (with a fresh virtual-register id per emitted instruction) and a
terminator.  Operands are constants, registers, or function arguments. -/

/-- An IR operand (`llvm::Value*` in value position). -/
inductive Operand where
  | constFP (v : ℚ)
  | reg (r : Nat)
  | arg (i : Nat)

/-- The instruction kinds the source can emit. -/
inductive InstrKind where
  | fadd (a b : Operand)
  | fsub (a b : Operand)
  | fmul (a b : Operand)
  | fcmpULT (a b : Operand)
  | fcmpONE (a b : Operand)
  | uitofp (a : Operand)
  | callFn (callee : String) (args : List Operand)
  | phi (incoming : List (Operand × Nat))

/-- An emitted instruction: result register and kind. -/
structure Instr where
  res : Nat
  kind : InstrKind

/-- A basic-block terminator. -/
inductive Terminator where
  | unterminated
  | br (b : Nat)
  | condbr (c : Operand) (t e : Nat)
  | ret (v : Operand)

/-- A basic block. -/
structure BB where
  id : Nat
  instrs : List Instr
  term : Terminator

/-- A function in the current module (`llvm::Function`): its name and
argument names (`arg_size()` is `args.length`).  Basic blocks of the function
under construction live in `CGState.fnBlocks`. -/
structure ModFunc where
  name : String
  args : List String

/-- `NamedValues`: `std::map<std::string, llvm::Value*>`.  The mapped value is
an `Option Operand` because `operator[]` default-inserts a null `Value*`. -/
abbrev NamedVals := List (String × Option Operand)

def nvLookup : NamedVals → String → Option (Option Operand)
  | [], _ => none
  | (k, v) :: rest, n => if k = n then some v else nvLookup rest n

/-- `NamedValues[n]` read: returns the mapped pointer (null = `none`),
default-inserting a null entry when absent. -/
def nvIndex (m : NamedVals) (n : String) : Option Operand × NamedVals :=
  match nvLookup m n with
  | some v => (v, m)
  | none => (none, m ++ [(n, none)])

/-- `NamedValues[n] = v` write: update in place, append when absent. -/
def nvSet : NamedVals → String → Option Operand → NamedVals
  | [], n, v => [(n, v)]
  | (k, w) :: rest, n, v =>
      if k = n then (k, v) :: rest else (k, w) :: nvSet rest n v

/-- `NamedValues.erase(n)`: remove the (unique) entry with key `n`. -/
def nvErase : NamedVals → String → NamedVals
  | [], _ => []
  | (k, w) :: rest, n => if k = n then rest else (k, w) :: nvErase rest n

/-- Lookup in the prototype registry `FunctionProtos`. -/
def pLookup : List (String × PrototypeAST) → String → Option PrototypeAST
  | [], _ => none
  | (k, v) :: rest, n => if k = n then some v else pLookup rest n

/-- Overwrite in the prototype registry (`FunctionProtos[name] = proto`). -/
def pSet : List (String × PrototypeAST) → String → PrototypeAST →
    List (String × PrototypeAST)
  | [], n, v => [(n, v)]
  | (k, w) :: rest, n, v =>
      if k = n then (k, v) :: rest else (k, w) :: pSet rest n v

/-- `TheModule->getFunction(name)`. -/
def mfLookup : List ModFunc → String → Option ModFunc
  | [], _ => none
  | f :: rest, n => if f.name = n then some f else mfLookup rest n

/-- `eraseFromParent`: remove the named function from the module. -/
def mfErase : List ModFunc → String → List ModFunc
  | [], _ => []
  | f :: rest, n => if f.name = n then rest else f :: mfErase rest n

/-- The code-generator state: `NamedValues`, the current module's function
list, the basic blocks of the function being built, the builder's insert
block, `FunctionProtos`, fresh-id counters, and the error messages printed so
far by `LogErrorV`. -/
structure CGState where
  namedValues : NamedVals
  modFuncs : List ModFunc
  fnBlocks : List BB
  curBB : Nat
  protos : List (String × PrototypeAST)
  nextReg : Nat
  nextBB : Nat
  errs : List String

/-- Append an instruction to a block of the function under construction. -/
def appendInstrTo (bs : List BB) (b : Nat) (i : Instr) : List BB :=
  bs.map fun bb => if bb.id = b then { bb with instrs := bb.instrs ++ [i] } else bb

/-- Set the terminator of a block. -/
def setTermOf (bs : List BB) (b : Nat) (t : Terminator) : List BB :=
  bs.map fun bb => if bb.id = b then { bb with term := t } else bb

/-- `PN->addIncoming(v, bb)`: extend the incoming list of the phi whose
result register is `r`. -/
def addIncomingTo (bs : List BB) (r : Nat) (inc : Operand × Nat) : List BB :=
  bs.map fun bb =>
    { bb with
      instrs := bb.instrs.map fun i =>
        match i.kind with
        | .phi l => if i.res = r then { i with kind := .phi (l ++ [inc]) } else i
        | _ => i }

/-- `Builder->Create...`: emit an instruction at the insert point, returning
its fresh result register. -/
def emit (s : CGState) (k : InstrKind) : Nat × CGState :=
  (s.nextReg,
    { s with
      nextReg := s.nextReg + 1,
      fnBlocks := appendInstrTo s.fnBlocks s.curBB ⟨s.nextReg, k⟩ })

/-- `Builder->CreateBr/CreateCondBr/CreateRet`: terminate the insert block. -/
def emitTerm (s : CGState) (t : Terminator) : CGState :=
  { s with fnBlocks := setTermOf s.fnBlocks s.curBB t }

/-- `BasicBlock::Create`: allocate a fresh block id; when `attach` is true the
block is created inside the current function (`If`'s else/merge blocks are
created detached and pushed onto the function later). -/
def newBlock (s : CGState) (attach : Bool) : Nat × CGState :=
  (s.nextBB,
    { s with
      nextBB := s.nextBB + 1,
      fnBlocks :=
        if attach then s.fnBlocks ++ [⟨s.nextBB, [], .unterminated⟩] else s.fnBlocks })

/-- `TheFunction->getBasicBlockList().push_back(bb)`. -/
def attachBlock (s : CGState) (b : Nat) : CGState :=
  { s with fnBlocks := s.fnBlocks ++ [⟨b, [], .unterminated⟩] }

/-- `LogErrorV`: print a one-line error and return null. -/
def logErrorV (s : CGState) (msg : String) : Option Operand × CGState :=
  (none, { s with errs := s.errs ++ [msg] })

/-- `PrototypeAST::codegen`: declare a function with one double parameter per
argument name in the current module; returns the declaration. -/
def codegenProto (p : PrototypeAST) (s : CGState) : ModFunc × CGState :=
  (⟨p.name, p.args⟩, { s with modFuncs := s.modFuncs ++ [⟨p.name, p.args⟩] })

/-- `getFunction`: current module first, then the prototype registry
(generating a fresh declaration from the stored prototype), else null. -/
def getFunction (name : String) (s : CGState) : Option ModFunc × CGState :=
  match mfLookup s.modFuncs name with
  | some f => (some f, s)
  | none =>
      match pLookup s.protos name with
      | some p =>
          let t := codegenProto p s
          (some t.1, t.2)
      | none => (none, s)

/-- The binary-operator dispatch of `BinaryExprAST::codegen`, after both
operands generated successfully in state `s2`. -/
def binDispatch (op : Char) (a b : Operand) (s2 : CGState) : Option Operand × CGState :=
  if op = '+' then
    let t := emit s2 (.fadd a b)
    (some (.reg t.1), t.2)
  else if op = '-' then
    let t := emit s2 (.fsub a b)
    (some (.reg t.1), t.2)
  else if op = '*' then
    let t := emit s2 (.fmul a b)
    (some (.reg t.1), t.2)
  else if op = '<' then
    let t := emit s2 (.fcmpULT a b)
    let t2 := emit t.2 (.uitofp (.reg t.1))
    (some (.reg t2.1), t2.2)
  else logErrorV s2 "invalid binary operator"

/-- `IfExprAST::codegen` up to the then-branch: compare the condition against
0.0, create the then/else/merge blocks (then attached, else and merge
detached), emit the conditional branch, position the builder in the then
block.  Returns (state, thenBB, elseBB, mergeBB). -/
def ifSetup (s1 : CGState) (cv : Operand) : CGState × Nat × Nat × Nat :=
  let tc := emit s1 (.fcmpONE cv (.constFP 0))
  let tThen := newBlock tc.2 true
  let tElse := newBlock tThen.2 false
  let tMerge := newBlock tElse.2 false
  let s5 := emitTerm tMerge.2 (.condbr (.reg tc.1) tThen.1 tElse.1)
  ({ s5 with curBB := tThen.1 }, tThen.1, tElse.1, tMerge.1)

/-- `IfExprAST::codegen` between the branches: jump from the (current) end of
the then path to merge, record that block for the phi, attach the else block
and position the builder in it.  Returns (state, thenEnd). -/
def ifElseEntry (s7 : CGState) (elseBB mergeBB : Nat) : CGState × Nat :=
  let s8 := emitTerm s7 (.br mergeBB)
  let thenEnd := s8.curBB
  ({ attachBlock s8 elseBB with curBB := elseBB }, thenEnd)

/-- `IfExprAST::codegen` after the else branch: jump to merge, attach the
merge block, emit the two-input phi. -/
def ifMerge (s10 : CGState) (mergeBB thenEnd : Nat) (tv ev : Operand) :
    Option Operand × CGState :=
  let s11 := emitTerm s10 (.br mergeBB)
  let elseEnd := s11.curBB
  let s12 := { attachBlock s11 mergeBB with curBB := mergeBB }
  let tp := emit s12 (.phi [(tv, thenEnd), (ev, elseEnd)])
  (some (.reg tp.1), tp.2)

/-- `ForExprAST::codegen` up to the body: branch from the pre-loop block into
the fresh loop block, start the induction phi with the start value, bind the
loop variable (saving any old binding).  Returns
(state, loopBB, phi register, saved old binding). -/
def forSetup (s1 : CGState) (vn : String) (startV : Operand) :
    CGState × Nat × Nat × Option Operand :=
  let preheadBB := s1.curBB
  let tLoop := newBlock s1 true
  let s2 := emitTerm tLoop.2 (.br tLoop.1)
  let s3 := { s2 with curBB := tLoop.1 }
  let tVar := emit s3 (.phi [(startV, preheadBB)])
  let tOld := nvIndex tVar.2.namedValues vn
  ({ tVar.2 with namedValues := nvSet tOld.2 vn (some (.reg tVar.1)) },
    tLoop.1, tVar.1, tOld.1)

/-- `ForExprAST::codegen` after the end-condition: compare against 0.0,
create the after block, conditionally branch back to the loop header,
register the phi's back-edge incoming value, restore (or erase) the loop
variable's binding, and return the constant 0.0. -/
def forFinish (s7 : CGState) (vn : String) (loopBB phiReg nextReg : Nat)
    (endV : Operand) (oldV : Option Operand) : Option Operand × CGState :=
  let tEnd := emit s7 (.fcmpONE endV (.constFP 0))
  let loopEndBB := tEnd.2.curBB
  let tAfter := newBlock tEnd.2 true
  let s8 := emitTerm tAfter.2 (.condbr (.reg tEnd.1) loopBB tAfter.1)
  let s9 := { s8 with curBB := tAfter.1 }
  let s10 :=
    { s9 with fnBlocks := addIncomingTo s9.fnBlocks phiReg (.reg nextReg, loopEndBB) }
  let s11 :=
    { s10 with
      namedValues :=
        match oldV with
        | some ov => nvSet s10.namedValues vn (some ov)
        | none => nvErase s10.namedValues vn }
  (some (.constFP 0), s11)

mutual

/-- `ExprAST::codegen` (all variants): translate one expression to an operand,
threading the code-generator state; `none` is the C++ null result. -/
def codegenE : ExprAST → CGState → Option Operand × CGState
  | .NumberExprAST v, s => (some (.constFP v), s)
  | .VariableExprAST n, s =>
      let t := nvIndex s.namedValues n
      match t.1 with
      | none =>
          (none, { s with namedValues := t.2,
                          errs := s.errs ++ ["Unknow variable name"] })
      | some x => (some x, { s with namedValues := t.2 })
  | .BinaryExprAST op l r, s =>
      let tl := codegenE l s
      let tr := codegenE r tl.2
      match tl.1, tr.1 with
      | some a, some b => binDispatch op a b tr.2
      | _, _ => (none, tr.2)
  | .CallExprAst callee args, s =>
      let tf := getFunction callee s
      match tf.1 with
      | none => logErrorV tf.2 "Unknow function referenced"
      | some f =>
          if f.args.length ≠ args.length then
            logErrorV tf.2 "Incorrect #arguments passed"
          else
            match codegenArgs args tf.2 with
            | (none, s2) => (none, s2)
            | (some vs, s2) =>
                let t := emit s2 (.callFn f.name vs)
                (some (.reg t.1), t.2)
  | .IfExprAST c th el, s =>
      match codegenE c s with
      | (none, s1) => (none, s1)
      | (some cv, s1) =>
          let q := ifSetup s1 cv
          match codegenE th q.1 with
          | (none, s7) => (none, s7)
          | (some tv, s7) =>
              let q2 := ifElseEntry s7 q.2.2.1 q.2.2.2
              match codegenE el q2.1 with
              | (none, s10) => (none, s10)
              | (some ev, s10) => ifMerge s10 q.2.2.2 q2.2 tv ev
  | .ForExprAST vn st en stp bd, s =>
      match codegenE st s with
      | (none, s1) => (none, s1)
      | (some startV, s1) =>
          let q := forSetup s1 vn startV
          match codegenE bd q.1 with
          | (none, s5) => (none, s5)
          | (some _, s5) =>
              match codegenStep stp s5 with
              | (none, s6) => (none, s6)
              | (some stepV, s6) =>
                  let tNext := emit s6 (.fadd (.reg q.2.2.1) stepV)
                  match codegenE en tNext.2 with
                  | (none, s7) => (none, s7)
                  | (some endV, s7) =>
                      forFinish s7 vn q.2.1 q.2.2.1 tNext.1 endV q.2.2.2

/-- The step clause of `ForExprAST::codegen`: generate it when present, else
use the constant 1.0. -/
def codegenStep : OptExprAST → CGState → Option Operand × CGState
  | .someE se, s => codegenE se s
  | .noneE, s => (some (.constFP 1), s)

/-- The argument loop of `CallExprAst::codegen`: generate arguments
left-to-right, aborting at the first null. -/
def codegenArgs : ExprList → CGState → Option (List Operand) × CGState
  | .nil, s => (some [], s)
  | .cons a rest, s =>
      match codegenE a s with
      | (none, s1) => (none, s1)
      | (some v, s1) =>
          match codegenArgs rest s1 with
          | (none, s2) => (none, s2)
          | (some vs, s2) => (some (v :: vs), s2)

end

/-! Manual unfolding equations for `codegenE`/`codegenArgs` (the automatic
equation generator does not handle this nested mutual definition). -/

theorem codegenE_num (v : ℚ) (s : CGState) :
    codegenE (.NumberExprAST v) s = (some (.constFP v), s) := rfl

theorem codegenE_var (n : String) (s : CGState) :
    codegenE (.VariableExprAST n) s =
      (match (nvIndex s.namedValues n).1 with
       | none =>
           (none, { s with namedValues := (nvIndex s.namedValues n).2,
                           errs := s.errs ++ ["Unknow variable name"] })
       | some x => (some x, { s with namedValues := (nvIndex s.namedValues n).2 })) := rfl

theorem codegenE_bin (op : Char) (l r : ExprAST) (s : CGState) :
    codegenE (.BinaryExprAST op l r) s =
      (match (codegenE l s).1, (codegenE r (codegenE l s).2).1 with
       | some a, some b => binDispatch op a b (codegenE r (codegenE l s).2).2
       | _, _ => (none, (codegenE r (codegenE l s).2).2)) := rfl

theorem codegenE_call (callee : String) (args : ExprList) (s : CGState) :
    codegenE (.CallExprAst callee args) s =
      (match (getFunction callee s).1 with
       | none => logErrorV (getFunction callee s).2 "Unknow function referenced"
       | some f =>
           if f.args.length ≠ args.length then
             logErrorV (getFunction callee s).2 "Incorrect #arguments passed"
           else
             match codegenArgs args (getFunction callee s).2 with
             | (none, s2) => (none, s2)
             | (some vs, s2) =>
                 (some (.reg (emit s2 (.callFn f.name vs)).1),
                   (emit s2 (.callFn f.name vs)).2)) := rfl

theorem codegenE_if (c th el : ExprAST) (s : CGState) :
    codegenE (.IfExprAST c th el) s =
      (match codegenE c s with
       | (none, s1) => (none, s1)
       | (some cv, s1) =>
           match codegenE th (ifSetup s1 cv).1 with
           | (none, s7) => (none, s7)
           | (some tv, s7) =>
               match codegenE el (ifElseEntry s7 (ifSetup s1 cv).2.2.1
                   (ifSetup s1 cv).2.2.2).1 with
               | (none, s10) => (none, s10)
               | (some ev, s10) =>
                   ifMerge s10 (ifSetup s1 cv).2.2.2
                     (ifElseEntry s7 (ifSetup s1 cv).2.2.1 (ifSetup s1 cv).2.2.2).2
                     tv ev) := rfl

theorem codegenE_for (vn : String) (st en : ExprAST) (stp : OptExprAST)
    (bd : ExprAST) (s : CGState) :
    codegenE (.ForExprAST vn st en stp bd) s =
      (match codegenE st s with
       | (none, s1) => (none, s1)
       | (some startV, s1) =>
           match codegenE bd (forSetup s1 vn startV).1 with
           | (none, s5) => (none, s5)
           | (some _, s5) =>
               match codegenStep stp s5 with
               | (none, s6) => (none, s6)
               | (some stepV, s6) =>
                   match codegenE en
                       (emit s6 (.fadd (.reg (forSetup s1 vn startV).2.2.1) stepV)).2 with
                   | (none, s7) => (none, s7)
                   | (some endV, s7) =>
                       forFinish s7 vn (forSetup s1 vn startV).2.1
                         (forSetup s1 vn startV).2.2.1
                         (emit s6 (.fadd (.reg (forSetup s1 vn startV).2.2.1) stepV)).1
                         endV (forSetup s1 vn startV).2.2.2) := rfl

theorem codegenArgs_nil (s : CGState) : codegenArgs .nil s = (some [], s) := rfl

theorem codegenArgs_cons (a : ExprAST) (rest : ExprList) (s : CGState) :
    codegenArgs (.cons a rest) s =
      (match codegenE a s with
       | (none, s1) => (none, s1)
       | (some v, s1) =>
           match codegenArgs rest s1 with
           | (none, s2) => (none, s2)
           | (some vs, s2) => (some (v :: vs), s2)) := rfl

/-- `FunctionAST::codegen` (the `RECALL` variant compiled in the source):
record the prototype in `FunctionProtos` first, resolve the function, open an
entry block, repopulate `NamedValues` from the resolved declaration's
arguments, generate the body; on success emit the return and finish, on
failure erase the function from the module (`FunctionProtos` is not rolled
back). -/
def codegenFunc (fn : FunctionAST) (s : CGState) : Option ModFunc × CGState :=
  let p := fn.proto
  let s1 := { s with protos := pSet s.protos p.name p }
  let tf := getFunction p.name s1
  match tf.1 with
  | none => (none, tf.2)
  | some theFn =>
      let tb := newBlock tf.2 true
      let s2 := { tb.2 with curBB := tb.1 }
      let nv := (theFn.args.enum.map fun q => (q.2, some (Operand.arg q.1))).foldl
        (fun m q => nvSet m q.1 q.2) []
      let s3 := { s2 with namedValues := nv }
      match codegenE fn.body s3 with
      | (some retV, s4) => (some theFn, emitTerm s4 (.ret retV))
      | (none, s4) =>
          (none, { s4 with modFuncs := mfErase s4.modFuncs theFn.name, fnBlocks := [] })

/-! ### Exact rational models of the LLVM double operations

`Rat.add`/`sub`/`mul` from the library are `@[irreducible]`; the interpreter
uses kernel-reducible equivalents built on `mkRat` so concrete executions can
be checked by `rfl`/`decide`. -/

/-- `fadd` on exact rationals. -/
def fpAdd (a b : ℚ) : ℚ := mkRat (a.num * b.den + b.num * a.den) (a.den * b.den)

/-- `fsub` on exact rationals. -/
def fpSub (a b : ℚ) : ℚ := mkRat (a.num * b.den - b.num * a.den) (a.den * b.den)

/-- `fmul` on exact rationals. -/
def fpMul (a b : ℚ) : ℚ := mkRat (a.num * b.num) (a.den * b.den)

/-! ### An interpreter for the emitted IR

Used to state execution facts about generated code (the backend JIT itself is
out of scope; this interprets the IR the front end emitted).  Registers hold
exact rationals; `i1` values are represented as `0`/`1`. -/

def regLookup : List (Nat × ℚ) → Nat → Option ℚ
  | [], _ => none
  | (k, v) :: rest, r => if k = r then some v else regLookup rest r

def evalOperand (env : List (Nat × ℚ)) (argv : List ℚ) : Operand → Option ℚ
  | .constFP v => some v
  | .reg r => regLookup env r
  | .arg i => argv.get? i

/-- Select a phi's incoming operand for the given predecessor block. -/
def phiPick : List (Operand × Nat) → Nat → Option Operand
  | [], _ => none
  | (v, b) :: rest, prev => if b = prev then some v else phiPick rest prev

/-- Execute one instruction (phis read the incoming value for `prev`). -/
def execInstr (argv : List ℚ) (prev : Nat) (env : List (Nat × ℚ)) (i : Instr) :
    Option (List (Nat × ℚ)) :=
  match i.kind with
  | .fadd a b => do
      let x ← evalOperand env argv a
      let y ← evalOperand env argv b
      some ((i.res, fpAdd x y) :: env)
  | .fsub a b => do
      let x ← evalOperand env argv a
      let y ← evalOperand env argv b
      some ((i.res, fpSub x y) :: env)
  | .fmul a b => do
      let x ← evalOperand env argv a
      let y ← evalOperand env argv b
      some ((i.res, fpMul x y) :: env)
  | .fcmpULT a b => do
      let x ← evalOperand env argv a
      let y ← evalOperand env argv b
      some ((i.res, if Rat.blt x y then 1 else 0) :: env)
  | .fcmpONE a b => do
      let x ← evalOperand env argv a
      let y ← evalOperand env argv b
      some ((i.res, if x = y then 0 else 1) :: env)
  | .uitofp a => do
      let x ← evalOperand env argv a
      some ((i.res, x) :: env)
  | .callFn _ _ => none
  | .phi inc => do
      let v ← phiPick inc prev
      let x ← evalOperand env argv v
      some ((i.res, x) :: env)

def execInstrs (argv : List ℚ) (prev : Nat) :
    List Instr → List (Nat × ℚ) → Option (List (Nat × ℚ))
  | [], env => some env
  | i :: rest, env =>
      match execInstr argv prev env i with
      | none => none
      | some env1 => execInstrs argv prev rest env1

def bbFind : List BB → Nat → Option BB
  | [], _ => none
  | bb :: rest, b => if bb.id = b then some bb else bbFind rest b

/-- Run a function body block by block; returns the `ret` value and the trace
of visited block ids. -/
def runBlocks (bs : List BB) (argv : List ℚ) :
    Nat → Nat → Nat → List (Nat × ℚ) → List Nat → Option (ℚ × List Nat)
  | 0, _, _, _, _ => none
  | fuel + 1, prev, cur, env, tr =>
      match bbFind bs cur with
      | none => none
      | some bb =>
          match execInstrs argv prev bb.instrs env with
          | none => none
          | some env1 =>
              match bb.term with
              | .ret v =>
                  match evalOperand env1 argv v with
                  | none => none
                  | some q => some (q, tr ++ [cur])
              | .br b => runBlocks bs argv fuel cur b env1 (tr ++ [cur])
              | .condbr c t e =>
                  match evalOperand env1 argv c with
                  | none => none
                  | some q =>
                      runBlocks bs argv fuel cur (if q = 0 then e else t) env1 (tr ++ [cur])
              | .unterminated => none

/-- Run a generated function from its entry block (the first block). -/
def runFn (bs : List BB) (argv : List ℚ) (fuel : Nat) : Option (ℚ × List Nat) :=
  match bs with
  | [] => none
  | bb :: _ => runBlocks bs argv fuel bb.id bb.id [] []

/-! ### Session driver (`main` + `Mainloop` + the handlers) -/

/-- The session state: parser state (`CurTok`, remaining tokens, operator
table), code-generator state, and counters for modules handed to the JIT and
anonymous expressions evaluated. -/
structure Session where
  ps : PState
  cg : CGState
  shipped : Nat
  evaled : Nat

/-- Result of one handler: continue, or crash (undefined behaviour from
dereferencing the null `IR` pointer in `IR->print`). -/
inductive StepRes where
  | ok (s : Session)
  | crash (s : Session)

/-- `InitializeModule`: fresh context/module/builder; `NamedValues`,
`FunctionProtos` and the error log are not reset. -/
def initModule (cg : CGState) : CGState :=
  { cg with modFuncs := [], fnBlocks := [], curBB := 0, nextReg := 0, nextBB := 0 }

/-- `HandleDefinition`.  On parse failure: skip one token.  On parse success
the source runs `IR = AST->codegen(); IR->print(...)` with no null check, so a
codegen failure dereferences null (crash); on codegen success the module is
handed to the JIT and a fresh module is opened. -/
def handleDefinition (pf : Nat) (s : Session) : StepRes :=
  match ParseDefinition pf s.ps with
  | (none, ps1) => .ok { s with ps := advanceP ps1 }
  | (some ast, ps1) =>
      match codegenFunc ast s.cg with
      | (none, cg1) => .crash { s with ps := ps1, cg := cg1 }
      | (some _, cg1) =>
          .ok { s with ps := ps1, cg := initModule cg1, shipped := s.shipped + 1 }

/-- `HandleExtern` (named `handleExt` in the model): prototype codegen never
fails, the declaration is added to the current module and the prototype is
recorded in the registry. -/
def handleExt (s : Session) : StepRes :=
  match ParseExt s.ps with
  | (none, ps1) => .ok { s with ps := advanceP ps1 }
  | (some p, ps1) =>
      let t := codegenProto p s.cg
      .ok { s with ps := ps1, cg := { t.2 with protos := pSet t.2.protos p.name p } }

/-- `HandleTopLevelExpression`: like `HandleDefinition` but the anonymous
module is executed and then unloaded (modelled by the `evaled` counter). -/
def handleTopLevel (pf : Nat) (s : Session) : StepRes :=
  match ParseTopLevelExpr pf s.ps with
  | (none, ps1) => .ok { s with ps := advanceP ps1 }
  | (some ast, ps1) =>
      match codegenFunc ast s.cg with
      | (none, cg1) => .crash { s with ps := ps1, cg := cg1 }
      | (some _, cg1) =>
          .ok { s with ps := ps1, cg := initModule cg1, evaled := s.evaled + 1 }

/-- Result of a session run. -/
inductive RunRes where
  | finished (s : Session)
  | crashed (s : Session)
  | outOfFuel (s : Session)

/-- `Mainloop`: dispatch on `CurTok` until end of input. -/
def mainloop (pf : Nat) : Nat → Session → RunRes
  | 0, s => .outOfFuel s
  | fuel + 1, s =>
      match s.ps.cur with
      | .tok_eof => .finished s
      | .tok_char ';' => mainloop pf fuel { s with ps := advanceP s.ps }
      | .tok_def =>
          match handleDefinition pf s with
          | .ok s1 => mainloop pf fuel s1
          | .crash s1 => .crashed s1
      | .tok_ext =>
          match handleExt s with
          | .ok s1 => mainloop pf fuel s1
          | .crash s1 => .crashed s1
      | _ =>
          match handleTopLevel pf s with
          | .ok s1 => mainloop pf fuel s1
          | .crash s1 => .crashed s1

/-- The initial code-generator state. -/
def initCG : CGState := ⟨[], [], [], 0, [], 0, 0, []⟩

/-- The session as set up by `main`: `CurTok` starts as `';'`, the operator
table is seeded, and a fresh module is open. -/
def initSession (toks : List Token) : Session :=
  ⟨⟨.tok_char ';', toks, seededOps⟩, initCG, 0, 0⟩

/-- Run a whole session on a token stream. -/
def runSession (pf lf : Nat) (toks : List Token) : RunRes :=
  mainloop pf lf (initSession toks)

def runResSession : RunRes → Session
  | .finished s => s
  | .crashed s => s
  | .outOfFuel s => s

def isCrashed : RunRes → Bool
  | .crashed _ => true
  | _ => false

/-- The session carried by either outcome of a handler. -/
def stepSession : StepRes → Session
  | .ok s => s
  | .crash s => s

/-! ### Concrete fixtures used by the theorems -/

/-- Token stream of `def f(x) y` (body references the unknown variable `y`). -/
def toksC1 : List Token :=
  [.tok_def, .tok_identifier "f", .tok_char '(', .tok_identifier "x",
   .tok_char ')', .tok_identifier "y"]

/-- Token stream of `def 1 7`: the definition fails to parse (number where the
prototype name should be), then `7` is a top-level expression. -/
def toksC1p : List Token := [.tok_def, .tok_number 1, .tok_number 7]

/-- Token stream of `1;`. -/
def toksC7 : List Token := [.tok_number 1, .tok_char ';']

/-- A module state in which a two-parameter function `f` is declared. -/
def cgF2 : CGState := { initCG with modFuncs := [⟨"f", ["x", "y"]⟩] }

/-- A code-generation state inside a function with one parameter `x`. -/
def cgC6 : CGState :=
  { initCG with
    namedValues := [("x", some (.arg 0))]
    fnBlocks := [⟨0, [], .unterminated⟩]
    nextBB := 1 }

/-- The anonymous function for `for i = 1, 0, 1 in i` (end condition `0` is
false on entry). -/
def forAnon : FunctionAST :=
  ⟨⟨"__anon_expr", []⟩,
    .ForExprAST "i" (.NumberExprAST 1) (.NumberExprAST 0) (.someE (.NumberExprAST 1))
      (.VariableExprAST "i")⟩

/-- `def f(x) y` as an AST. -/
def defBad : FunctionAST := ⟨⟨"f", ["x"]⟩, .VariableExprAST "y"⟩

/-! ### Wellformedness predicates and helpers used by the theorems -/

/-- The sub-list of module functions with a given name. -/
def mfFilterN : List ModFunc → String → List ModFunc
  | [], _ => []
  | f :: rest, n =>
      if f.name = n then f :: mfFilterN rest n else mfFilterN rest n

/-- The prototype registry's keys agree with the stored prototypes' names
(true of every registry the program builds: both writers use
`FunctionProtos[P->getName()] = P`). -/
def protosKeysWF (l : List (String × PrototypeAST)) : Prop :=
  ∀ q ∈ l, (q.2 : PrototypeAST).name = q.1

/-- No null values in `NamedValues` (true outside the transient windows the
code itself creates and removes). -/
def nvWF (m : NamedVals) : Prop := ∀ q ∈ m, (q.2 : Option Operand).isSome = true

/-- All instruction result registers are below the fresh-register counter. -/
def wfRegs (bs : List BB) (n : Nat) : Prop := ∀ bb ∈ bs, ∀ i ∈ bb.instrs, i.res < n

/-- All block ids are below the fresh-block counter. -/
def wfIds (bs : List BB) (n : Nat) : Prop := ∀ bb ∈ bs, bb.id < n

/-- Some block carries the given id. -/
def hasBlock (bs : List BB) (c : Nat) : Prop := ∃ bb ∈ bs, bb.id = c

/-- Structural wellformedness of a code-generation state: registers and block
ids fresh below their counters, and the builder's insert block exists. -/
def cgWF (s : CGState) : Prop :=
  wfRegs s.fnBlocks s.nextReg ∧ wfIds s.fnBlocks s.nextBB ∧
    s.curBB < s.nextBB ∧ hasBlock s.fnBlocks s.curBB

/-- The positive-precedence content of an operator table: the binding
strength the parser actually uses (zero and negative entries behave exactly
like absent ones in `GetTokPrecedence`). -/
def posPre (m : OpMap) (c : Char) : Option Int :=
  match opLookup m c with
  | some v => if 0 < v then some v else none
  | none => none

/-- Invariant relating a state to a later one along expression code
generation: the prototype registry is untouched, and (under well-keyed
registries) module entries for any already-declared name survive
unchanged. -/
def pmOk (s t : CGState) : Prop :=
  t.protos = s.protos ∧
  (protosKeysWF s.protos → ∀ n, mfLookup s.modFuncs n ≠ none →
    mfLookup t.modFuncs n ≠ none ∧ mfFilterN t.modFuncs n = mfFilterN s.modFuncs n)

/-- Invariant relating a state to a later one along expression code
generation: the fresh counters are monotone, the insert block is either
unchanged or a block allocated during the call, structural wellformedness is
preserved, and every block other than the entry insert block survives
unchanged. -/
def blkOk (s t : CGState) : Prop :=
  s.nextBB ≤ t.nextBB ∧ s.nextReg ≤ t.nextReg ∧
    (t.curBB = s.curBB ∨ s.nextBB ≤ t.curBB) ∧
    (cgWF s → cgWF t) ∧
    (cgWF s → ∀ bb ∈ s.fnBlocks, bb.id ≠ s.curBB → bb ∈ t.fnBlocks)

/-! ### Lexer lemmas (claim C8) -/

/-- Skipping whitespace is a no-op on a non-whitespace `LastChar`. -/
theorem skipSpaces_nospace (c : Char) (inp : List Char) (h : cIsSpace c = false) :
    skipSpaces (some c) inp = (some c, inp) := by
  cases inp <;> simp [skipSpaces, h]

/-- A number-class character is not whitespace and not alphabetic (so the
number branch of `gettok` is the one taken). -/
theorem cIsNum_flags (c : Char) (h : cIsNum c = true) :
    cIsSpace c = false ∧ cIsAlpha c = false := by
  simp only [cIsNum, cIsDigit, Bool.or_eq_true, decide_eq_true_eq,
    Bool.and_eq_true] at h
  rcases h with h | h
  · constructor <;> · simp [cIsSpace, cIsAlpha]; omega
  · subst h; constructor <;> rfl

/-- Every character accumulated by `takeRun` satisfies the predicate. -/
theorem takeRun_all (p : Char → Bool) :
    ∀ l : List Char, ∀ c ∈ (takeRun p l).1, p c = true := by
  intro l
  induction l with
  | nil => intro c hc; simp [takeRun] at hc
  | cons d rest ih =>
      intro c hc
      by_cases hd : p d
      · simp only [takeRun, hd, if_true, List.mem_cons] at hc
        rcases hc with rfl | hc
        · exact hd
        · exact ih c hc
      · simp [takeRun, hd] at hc

/-- The character on which `takeRun` stops fails the predicate (so the
accumulated run is maximal). -/
theorem takeRun_stop (p : Char → Bool) :
    ∀ (l : List Char) (d : Char), (takeRun p l).2.1 = some d → p d = false := by
  intro l
  induction l with
  | nil => intro d h; simp [takeRun] at h
  | cons c rest ih =>
      intro d h
      by_cases hc : p c
      · simp only [takeRun, hc, if_true] at h
        exact ih d h
      · simp only [takeRun, hc, if_false, Bool.false_eq_true] at h
        obtain rfl : c = d := by simpa using h
        simpa using hc

/-- `takeRun` splits its input into the run, the stopping character (if any)
and the remainder. -/
theorem takeRun_decomp (p : Char → Bool) :
    ∀ l : List Char,
      l = (takeRun p l).1 ++
        (match (takeRun p l).2.1 with
         | some d => d :: (takeRun p l).2.2
         | none => []) := by
  intro l
  induction l with
  | nil => rfl
  | cons c rest ih =>
      by_cases hc : p c
      · simpa [takeRun, hc] using congrArg (c :: ·) ih
      · simp [takeRun, hc]

/-! ### Claim C8 -/

/-- C8, counterexample: the claim says a digit/`.` run that is not a valid
float literal yields the value 0, but the run `1.2.3` (two decimal points, so
not a valid float literal) lexes to the number 1.2 (strtod converts the
longest valid prefix), which is nonzero. -/
theorem claim_C8_counterexample :
    gettok 0 (some '1') (".2.3").toList = (.tok_number (mkRat 6 5), none, []) ∧
    mkRat 6 5 ≠ 0 := by
  exact ⟨by decide, by decide⟩

/-- C8 (amended): at every input position whose current character is a digit
or `.`, the lexer accumulates the maximal run of digits and `.` characters
(every accumulated character is in the class, the stopping character is not,
and run ++ stop ++ remainder reassembles the input) into one `tok_number`
token whose value is the run converted by `strtod` semantics: the longest
valid leading decimal is converted (`1.2.3` yields 1.2), and the value is 0
exactly when no leading valid decimal exists (e.g. the run `.`). -/
theorem claim_C8 (c : Char) (inp : List Char) (fuel : Nat) (h : cIsNum c = true) :
    gettok fuel (some c) inp =
      (.tok_number (strtodM (c :: (takeRun cIsNum inp).1)),
        (takeRun cIsNum inp).2.1, (takeRun cIsNum inp).2.2) ∧
    (∀ d ∈ c :: (takeRun cIsNum inp).1, cIsNum d = true) ∧
    (∀ d, (takeRun cIsNum inp).2.1 = some d → cIsNum d = false) ∧
    inp = (takeRun cIsNum inp).1 ++
      (match (takeRun cIsNum inp).2.1 with
       | some d => d :: (takeRun cIsNum inp).2.2
       | none => []) ∧
    strtodM ['1', '.', '2', '.', '3'] = mkRat 6 5 ∧
    strtodM ['.'] = 0 := by
  obtain ⟨hsp, hal⟩ := cIsNum_flags c h
  refine ⟨?_, ?_, takeRun_stop _ inp, takeRun_decomp _ inp, by decide, by decide⟩
  · have hstep : ∀ k, gettokStep k (some c) inp =
        (.tok_number (strtodM (c :: (takeRun cIsNum inp).1)),
          (takeRun cIsNum inp).2.1, (takeRun cIsNum inp).2.2) := by
      intro k
      simp [gettokStep, skipSpaces_nospace c inp hsp, hal, h]
    cases fuel with
    | zero => exact hstep _
    | succ n => exact hstep _
  · intro d hd
    rcases List.mem_cons.mp hd with rfl | hd
    · exact h
    · exact takeRun_all _ inp d hd

/-- Witness for `claim_C8` at the concrete input `1.2.3`. -/
theorem claim_C8_witness :
    cIsNum '1' = true ∧
    gettok 0 (some '1') (".2.3").toList =
      (.tok_number (strtodM ('1' :: (takeRun cIsNum (".2.3").toList).1)),
        (takeRun cIsNum (".2.3").toList).2.1,
        (takeRun cIsNum (".2.3").toList).2.2) :=
  ⟨by decide, (claim_C8 '1' (".2.3").toList 0 (by decide)).1⟩

/-! ### Claim C1 -/

/-- C1 (the code violates it): for a `def` whose body fails code generation
(`def f(x) y`, body referencing the unknown variable `y`), `HandleDefinition`
calls `IR->print(...)` on the null result of `codegen()` with no check — a
null-pointer dereference, modelled as a crash — so the session does not
survive; the one-line codegen error is printed just before the crash.  Parse
failures, in contrast, are recovered: on `def 1 7` the malformed definition is
skipped one token and the following top-level expression is still evaluated. -/
theorem claim_C1 :
    isCrashed (runSession 9 4 toksC1) = true ∧
    (runResSession (runSession 9 4 toksC1)).cg.errs = ["Unknow variable name"] ∧
    isCrashed (runSession 9 6 toksC1p) = false ∧
    (runResSession (runSession 9 6 toksC1p)).evaled = 1 := by
  exact ⟨rfl, rfl, rfl, rfl⟩

/-! ### Counterexamples for the error-message claims C4 and C5 -/

/-- C4, counterexample: calling the two-parameter `f` with one argument does
fail before generating anything, but the error text is
"Incorrect #arguments passed", not the claimed "incorrect number of
arguments". -/
theorem claim_C4_counterexample :
    (codegenE (.CallExprAst "f" (.cons (.NumberExprAST 1) .nil)) cgF2).1 = none ∧
    (codegenE (.CallExprAst "f" (.cons (.NumberExprAST 1) .nil)) cgF2).2.errs =
      ["Incorrect #arguments passed"] ∧
    "incorrect number of arguments" ∉
      (codegenE (.CallExprAst "f" (.cons (.NumberExprAST 1) .nil)) cgF2).2.errs := by
  refine ⟨rfl, rfl, ?_⟩
  intro hmem
  rw [show (codegenE (.CallExprAst "f" (.cons (.NumberExprAST 1) .nil)) cgF2).2.errs =
      ["Incorrect #arguments passed"] from rfl] at hmem
  simp at hmem

/-- C5, counterexample: a call to a name in neither the module nor the
registry fails with the text "Unknow function referenced" (sic), not the
claimed "unknown function referenced". -/
theorem claim_C5_counterexample :
    (codegenE (.CallExprAst "g" .nil) initCG).1 = none ∧
    (codegenE (.CallExprAst "g" .nil) initCG).2.errs = ["Unknow function referenced"] ∧
    "unknown function referenced" ∉
      (codegenE (.CallExprAst "g" .nil) initCG).2.errs := by
  refine ⟨rfl, rfl, ?_⟩
  intro hmem
  rw [show (codegenE (.CallExprAst "g" .nil) initCG).2.errs =
      ["Unknow function referenced"] from rfl] at hmem
  simp at hmem

/-! ### Counterexample for claim C7 -/

/-- C7, counterexample: after the session processes `1;`, the parser's
`BinopPrecedence[';']` probe (`std::map::operator[]`) has inserted a
zero-precedence entry for `';'`, so the key set is no longer exactly the
seeded one. -/
theorem claim_C7_counterexample :
    opLookup (runResSession (runSession 9 6 toksC7)).ps.ops ';' = some 0 ∧
    opLookup seededOps ';' = none ∧
    isCrashed (runSession 9 6 toksC7) = false := by
  exact ⟨rfl, rfl, rfl⟩

/-! ### Claim C2 -/

/-- C2: `BinaryExprAST::codegen` generates both operands first; then `+`, `-`,
`*` emit the corresponding floating-point arithmetic instruction, `<` emits an
unsigned-ordered less-than comparison widened back to double via `uitofp`
(1.0/0.0), and every other operator character fails with exactly the error
"invalid binary operator".  In particular `/` and `>` — which the seeded
precedence table makes parseable (their tokens parse to `BinaryExprAST`
nodes) — reach that error. -/
theorem claim_C2 (op : Char) (l r : ExprAST) (s s1 s2 : CGState) (a b : Operand)
    (hl : codegenE l s = (some a, s1)) (hr : codegenE r s1 = (some b, s2)) :
    (op = '+' → codegenE (.BinaryExprAST op l r) s =
      (some (.reg (emit s2 (.fadd a b)).1), (emit s2 (.fadd a b)).2)) ∧
    (op = '-' → codegenE (.BinaryExprAST op l r) s =
      (some (.reg (emit s2 (.fsub a b)).1), (emit s2 (.fsub a b)).2)) ∧
    (op = '*' → codegenE (.BinaryExprAST op l r) s =
      (some (.reg (emit s2 (.fmul a b)).1), (emit s2 (.fmul a b)).2)) ∧
    (op = '<' → codegenE (.BinaryExprAST op l r) s =
      (some (.reg (emit (emit s2 (.fcmpULT a b)).2
          (.uitofp (.reg (emit s2 (.fcmpULT a b)).1))).1),
        (emit (emit s2 (.fcmpULT a b)).2
          (.uitofp (.reg (emit s2 (.fcmpULT a b)).1))).2)) ∧
    (op ≠ '+' → op ≠ '-' → op ≠ '*' → op ≠ '<' →
      codegenE (.BinaryExprAST op l r) s =
        (none, { s2 with errs := s2.errs ++ ["invalid binary operator"] })) ∧
    ((ParseTopLevelExpr 9 ⟨.tok_number 1, [.tok_char '/', .tok_number 2], seededOps⟩).1 =
      some ⟨⟨"__anon_expr", []⟩, .BinaryExprAST '/' (.NumberExprAST 1) (.NumberExprAST 2)⟩) ∧
    ((codegenFunc ⟨⟨"__anon_expr", []⟩,
        .BinaryExprAST '/' (.NumberExprAST 1) (.NumberExprAST 2)⟩ initCG).1 = none ∧
      (codegenFunc ⟨⟨"__anon_expr", []⟩,
        .BinaryExprAST '/' (.NumberExprAST 1) (.NumberExprAST 2)⟩ initCG).2.errs =
        ["invalid binary operator"]) ∧
    ((ParseTopLevelExpr 9 ⟨.tok_number 1, [.tok_char '>', .tok_number 2], seededOps⟩).1 =
      some ⟨⟨"__anon_expr", []⟩, .BinaryExprAST '>' (.NumberExprAST 1) (.NumberExprAST 2)⟩) ∧
    ((codegenFunc ⟨⟨"__anon_expr", []⟩,
        .BinaryExprAST '>' (.NumberExprAST 1) (.NumberExprAST 2)⟩ initCG).1 = none ∧
      (codegenFunc ⟨⟨"__anon_expr", []⟩,
        .BinaryExprAST '>' (.NumberExprAST 1) (.NumberExprAST 2)⟩ initCG).2.errs =
        ["invalid binary operator"]) := by
  refine ⟨?_, ?_, ?_, ?_, ?_, rfl, ⟨rfl, rfl⟩, rfl, ⟨rfl, rfl⟩⟩
  · rintro rfl; simp [codegenE_bin, hl, hr, binDispatch]
  · rintro rfl; simp [codegenE_bin, hl, hr, binDispatch]
  · rintro rfl; simp [codegenE_bin, hl, hr, binDispatch]
  · rintro rfl; simp [codegenE_bin, hl, hr, binDispatch]
  · intro h1 h2 h3 h4
    simp [codegenE_bin, hl, hr, binDispatch, h1, h2, h3, h4, logErrorV]

/-- Witness for `claim_C2` at `1 + 2` from the initial state. -/
theorem claim_C2_witness :
    codegenE (.NumberExprAST 1) initCG = (some (.constFP 1), initCG) ∧
    codegenE (.NumberExprAST 2) initCG = (some (.constFP 2), initCG) ∧
    codegenE (.BinaryExprAST '+' (.NumberExprAST 1) (.NumberExprAST 2)) initCG =
      (some (.reg (emit initCG (.fadd (.constFP 1) (.constFP 2))).1),
        (emit initCG (.fadd (.constFP 1) (.constFP 2))).2) :=
  ⟨rfl, rfl,
    (claim_C2 '+' (.NumberExprAST 1) (.NumberExprAST 2) initCG initCG initCG
      (.constFP 1) (.constFP 2) rfl rfl).1 rfl⟩

/-! ### Claim C3 -/

/-- `GetTokPrecedence` on an ASCII operator with positive table precedence:
returns the precedence and leaves the state unchanged (the `operator[]`
lookup hits, so no entry is inserted). -/
theorem getTokPrec_pos (c : Char) (rest : List Token) (m : OpMap) (p : Int)
    (hc : c.toNat ≤ 127) (hl : opLookup m c = some p) (hp : 0 < p) :
    GetTokPrecedence ⟨.tok_char c, rest, m⟩ = (p, ⟨.tok_char c, rest, m⟩) := by
  simp only [GetTokPrecedence]
  rw [if_pos hc]
  simp only [opIndex, hl]
  rw [if_neg (by omega : ¬ p ≤ 0)]

/-- One unfolding of the `ParseBinOpRHS` loop when the current token is an
ASCII operator of positive precedence at least the minimum. -/
theorem ParseBinOpRHS_char (f : Nat) (exprPrec : Int) (lhs : ExprAST) (c : Char)
    (rest : List Token) (m : OpMap) (p : Int)
    (hc : c.toNat ≤ 127) (hl : opLookup m c = some p) (hp : 0 < p)
    (hge : ¬ p < exprPrec) :
    ParseBinOpRHS (f + 1) exprPrec lhs ⟨.tok_char c, rest, m⟩ =
      (match ParsePrimary f (advanceP ⟨.tok_char c, rest, m⟩) with
       | (none, s3) => (none, s3)
       | (some rhs0, s3) =>
           if p < (GetTokPrecedence s3).1 then
             match ParseBinOpRHS f (p + 1) rhs0 (GetTokPrecedence s3).2 with
             | (none, s5) => (none, s5)
             | (some rhs1, s5) =>
                 ParseBinOpRHS f exprPrec (.BinaryExprAST c lhs rhs1) s5
           else
             ParseBinOpRHS f exprPrec (.BinaryExprAST c lhs rhs0)
               (GetTokPrecedence s3).2) := by
  have hg : GetTokPrecedence ⟨.tok_char c, rest, m⟩ = (p, ⟨.tok_char c, rest, m⟩) :=
    getTokPrec_pos c rest m p hc hl hp
  show (let t := GetTokPrecedence ⟨.tok_char c, rest, m⟩
        if t.1 < exprPrec then (some lhs, t.2)
        else
          match t.2.cur with
          | .tok_char opc =>
              (match ParsePrimary f (advanceP t.2) with
               | (none, s3) => (none, s3)
               | (some rhs0, s3) =>
                   if t.1 < (GetTokPrecedence s3).1 then
                     match ParseBinOpRHS f (t.1 + 1) rhs0 (GetTokPrecedence s3).2 with
                     | (none, s5) => (none, s5)
                     | (some rhs1, s5) =>
                         ParseBinOpRHS f exprPrec (.BinaryExprAST opc lhs rhs1) s5
                   else
                     ParseBinOpRHS f exprPrec (.BinaryExprAST opc lhs rhs0)
                       (GetTokPrecedence s3).2)
          | _ => (none, t.2)) = _
  rw [hg]
  show (if p < exprPrec then _ else _) = _
  rw [if_neg hge]

/-- The `ParseBinOpRHS` loop stops (returning the accumulated left-hand side)
at end of input whenever the minimum precedence exceeds −1. -/
theorem ParseBinOpRHS_stop_eof (f : Nat) (exprPrec : Int) (lhs : ExprAST)
    (m : OpMap) (h : -1 < exprPrec) :
    ParseBinOpRHS (f + 1) exprPrec lhs ⟨.tok_eof, [], m⟩ =
      (some lhs, ⟨.tok_eof, [], m⟩) := by
  show (if (-1 : Int) < exprPrec then (some lhs, (⟨.tok_eof, [], m⟩ : PState))
        else _) = _
  rw [if_pos h]

/-- C3: precedence climbing groups a following operator of precedence at most
the current one to the left (equal precedence binds left-to-right), and
absorbs it into the right-hand side exactly when its precedence is strictly
greater; concretely, `10-2-3` parses as `(10-2)-3` and the code generated for
it evaluates to `5.0`. -/
theorem claim_C3 (m : OpMap) (c1 c2 : Char) (p1 p2 : Int) (a b c : ℚ)
    (hc1 : c1.toNat ≤ 127) (hl1 : opLookup m c1 = some p1) (hp1 : 0 < p1)
    (hc2 : c2.toNat ≤ 127) (hl2 : opLookup m c2 = some p2) (hp2 : 0 < p2) :
    (p2 ≤ p1 →
      ParseExpression 9 ⟨.tok_number a,
          [.tok_char c1, .tok_number b, .tok_char c2, .tok_number c], m⟩ =
        (some (.BinaryExprAST c2
            (.BinaryExprAST c1 (.NumberExprAST a) (.NumberExprAST b))
            (.NumberExprAST c)),
          ⟨.tok_eof, [], m⟩)) ∧
    (p1 < p2 →
      ParseExpression 9 ⟨.tok_number a,
          [.tok_char c1, .tok_number b, .tok_char c2, .tok_number c], m⟩ =
        (some (.BinaryExprAST c1 (.NumberExprAST a)
            (.BinaryExprAST c2 (.NumberExprAST b) (.NumberExprAST c))),
          ⟨.tok_eof, [], m⟩)) ∧
    (ParseExpression 9 ⟨.tok_number 10,
        [.tok_char '-', .tok_number 2, .tok_char '-', .tok_number 3],
        seededOps⟩).1 =
      some (.BinaryExprAST '-'
        (.BinaryExprAST '-' (.NumberExprAST 10) (.NumberExprAST 2))
        (.NumberExprAST 3)) ∧
    runFn (codegenFunc ⟨⟨"__anon_expr", []⟩,
        .BinaryExprAST '-'
          (.BinaryExprAST '-' (.NumberExprAST 10) (.NumberExprAST 2))
          (.NumberExprAST 3)⟩ initCG).2.fnBlocks [] 9 = some (5, [0]) := by
  refine ⟨?_, ?_, rfl, rfl⟩
  · intro hle
    have hA : ParseExpression 9
        (⟨.tok_number a,
          [.tok_char c1, .tok_number b, .tok_char c2, .tok_number c], m⟩ : PState) =
        ParseBinOpRHS 8 0 (.NumberExprAST a)
          ⟨.tok_char c1, [.tok_number b, .tok_char c2, .tok_number c], m⟩ := rfl
    rw [hA,
      ParseBinOpRHS_char 7 0 (.NumberExprAST a) c1
        [.tok_number b, .tok_char c2, .tok_number c] m p1 hc1 hl1 hp1
        (by omega)]
    show (if p1 < (GetTokPrecedence ⟨.tok_char c2, [.tok_number c], m⟩).1 then
            match ParseBinOpRHS 7 (p1 + 1) (.NumberExprAST b)
                (GetTokPrecedence ⟨.tok_char c2, [.tok_number c], m⟩).2 with
            | (none, s5) => (none, s5)
            | (some rhs1, s5) =>
                ParseBinOpRHS 7 0 (.BinaryExprAST c1 (.NumberExprAST a) rhs1) s5
          else
            ParseBinOpRHS 7 0
              (.BinaryExprAST c1 (.NumberExprAST a) (.NumberExprAST b))
              (GetTokPrecedence ⟨.tok_char c2, [.tok_number c], m⟩).2) = _
    rw [getTokPrec_pos c2 [.tok_number c] m p2 hc2 hl2 hp2]
    show (if p1 < p2 then _ else _) = _
    rw [if_neg (by omega : ¬ p1 < p2)]
    rw [ParseBinOpRHS_char 6 0
        (.BinaryExprAST c1 (.NumberExprAST a) (.NumberExprAST b)) c2
        [.tok_number c] m p2 hc2 hl2 hp2 (by omega)]
    show (if p2 < (-1 : Int) then
            match ParseBinOpRHS 6 (p2 + 1) (.NumberExprAST c)
                (⟨.tok_eof, [], m⟩ : PState) with
            | (none, s5) => (none, s5)
            | (some rhs1, s5) =>
                ParseBinOpRHS 6 0
                  (.BinaryExprAST c2
                    (.BinaryExprAST c1 (.NumberExprAST a) (.NumberExprAST b)) rhs1) s5
          else
            ParseBinOpRHS 6 0
              (.BinaryExprAST c2
                (.BinaryExprAST c1 (.NumberExprAST a) (.NumberExprAST b))
                (.NumberExprAST c))
              ⟨.tok_eof, [], m⟩) = _
    rw [if_neg (by omega : ¬ p2 < -1)]
    exact ParseBinOpRHS_stop_eof 5 0 _ m (by omega)
  · intro hlt
    have hA : ParseExpression 9
        (⟨.tok_number a,
          [.tok_char c1, .tok_number b, .tok_char c2, .tok_number c], m⟩ : PState) =
        ParseBinOpRHS 8 0 (.NumberExprAST a)
          ⟨.tok_char c1, [.tok_number b, .tok_char c2, .tok_number c], m⟩ := rfl
    rw [hA,
      ParseBinOpRHS_char 7 0 (.NumberExprAST a) c1
        [.tok_number b, .tok_char c2, .tok_number c] m p1 hc1 hl1 hp1
        (by omega)]
    show (if p1 < (GetTokPrecedence ⟨.tok_char c2, [.tok_number c], m⟩).1 then
            match ParseBinOpRHS 7 (p1 + 1) (.NumberExprAST b)
                (GetTokPrecedence ⟨.tok_char c2, [.tok_number c], m⟩).2 with
            | (none, s5) => (none, s5)
            | (some rhs1, s5) =>
                ParseBinOpRHS 7 0 (.BinaryExprAST c1 (.NumberExprAST a) rhs1) s5
          else
            ParseBinOpRHS 7 0
              (.BinaryExprAST c1 (.NumberExprAST a) (.NumberExprAST b))
              (GetTokPrecedence ⟨.tok_char c2, [.tok_number c], m⟩).2) = _
    rw [getTokPrec_pos c2 [.tok_number c] m p2 hc2 hl2 hp2]
    show (if p1 < p2 then
            match ParseBinOpRHS 7 (p1 + 1) (.NumberExprAST b)
                (⟨.tok_char c2, [.tok_number c], m⟩ : PState) with
            | (none, s5) => (none, s5)
            | (some rhs1, s5) =>
                ParseBinOpRHS 7 0 (.BinaryExprAST c1 (.NumberExprAST a) rhs1) s5
          else _) = _
    rw [if_pos hlt]
    rw [ParseBinOpRHS_char 6 (p1 + 1) (.NumberExprAST b) c2
        [.tok_number c] m p2 hc2 hl2 hp2 (by omega)]
    show (match
            (if p2 < (-1 : Int) then
              match ParseBinOpRHS 6 (p2 + 1) (.NumberExprAST c)
                  (⟨.tok_eof, [], m⟩ : PState) with
              | (none, s5) => (none, s5)
              | (some rhs1, s5) =>
                  ParseBinOpRHS 6 (p1 + 1)
                    (.BinaryExprAST c2 (.NumberExprAST b) rhs1) s5
            else
              ParseBinOpRHS 6 (p1 + 1)
                (.BinaryExprAST c2 (.NumberExprAST b) (.NumberExprAST c))
                ⟨.tok_eof, [], m⟩) with
          | (none, s5) => (none, s5)
          | (some rhs1, s5) =>
              ParseBinOpRHS 7 0 (.BinaryExprAST c1 (.NumberExprAST a) rhs1) s5) = _
    rw [if_neg (by omega : ¬ p2 < -1),
      ParseBinOpRHS_stop_eof 5 (p1 + 1) _ m (by omega)]
    show ParseBinOpRHS 7 0
        (.BinaryExprAST c1 (.NumberExprAST a)
          (.BinaryExprAST c2 (.NumberExprAST b) (.NumberExprAST c)))
        ⟨.tok_eof, [], m⟩ = _
    exact ParseBinOpRHS_stop_eof 6 0 _ m (by omega)

/-- Witness for `claim_C3` with `-` and `-` (both precedence 20) from the
seeded table. -/
theorem claim_C3_witness :
    opLookup seededOps '-' = some 20 ∧ (20 : Int) ≤ 20 ∧
    ParseExpression 9 ⟨.tok_number 10,
        [.tok_char '-', .tok_number 2, .tok_char '-', .tok_number 3],
        seededOps⟩ =
      (some (.BinaryExprAST '-'
          (.BinaryExprAST '-' (.NumberExprAST 10) (.NumberExprAST 2))
          (.NumberExprAST 3)),
        ⟨.tok_eof, [], seededOps⟩) :=
  ⟨by decide, by decide,
    (claim_C3 seededOps '-' '-' 20 20 10 2 3
      (by decide) (by decide) (by decide)
      (by decide) (by decide) (by decide)).1 (by decide)⟩

/-! ### Claim C4 -/

/-- C4 (amended): when the resolved declaration's parameter count differs
from the argument count, `CallExprAst::codegen` fails with the error
"Incorrect #arguments passed" (the source's exact text) before generating any
argument and without emitting a call — the state is exactly the
post-resolution state plus that one error line.  When the arity matches, the
arguments are generated left-to-right by the argument loop (the loop
generates the head first and the tail from the head's state); the first
failing argument aborts the whole call with no call emitted (the result state
is exactly the failed loop's state). -/
theorem claim_C4 (callee : String) (args : ExprList) (s s1 : CGState) (f : ModFunc)
    (hf : getFunction callee s = (some f, s1)) :
    (f.args.length ≠ args.length →
      codegenE (.CallExprAst callee args) s =
        (none, { s1 with errs := s1.errs ++ ["Incorrect #arguments passed"] })) ∧
    (f.args.length = args.length →
      codegenE (.CallExprAst callee args) s =
        (match codegenArgs args s1 with
         | (none, s2) => (none, s2)
         | (some vs, s2) =>
             (some (.reg (emit s2 (.callFn f.name vs)).1),
               (emit s2 (.callFn f.name vs)).2))) ∧
    (∀ s2, f.args.length = args.length → codegenArgs args s1 = (none, s2) →
      codegenE (.CallExprAst callee args) s = (none, s2)) ∧
    (∀ a rest sa, codegenE a s1 = (none, sa) →
      codegenArgs (.cons a rest) s1 = (none, sa)) ∧
    (∀ a rest v sa, codegenE a s1 = (some v, sa) →
      codegenArgs (.cons a rest) s1 =
        (match codegenArgs rest sa with
         | (none, s2) => (none, s2)
         | (some vs, s2) => (some (v :: vs), s2))) := by
  refine ⟨?_, ?_, ?_, ?_, ?_⟩
  · intro hne
    simp [codegenE_call, hf, hne, logErrorV]
  · intro heq
    simp [codegenE_call, hf, heq]
  · intro s2 heq hargs
    simp [codegenE_call, hf, heq, hargs]
  · intro a rest sa ha
    simp [codegenArgs_cons, ha]
  · intro a rest v sa ha
    simp [codegenArgs_cons, ha]

/-- Witness for `claim_C4`: calling the two-parameter `f` with one argument. -/
theorem claim_C4_witness :
    getFunction "f" cgF2 = (some ⟨"f", ["x", "y"]⟩, cgF2) ∧
    (ModFunc.mk "f" ["x", "y"]).args.length ≠
      (ExprList.cons (.NumberExprAST 1) .nil).length ∧
    codegenE (.CallExprAst "f" (.cons (.NumberExprAST 1) .nil)) cgF2 =
      (none, { cgF2 with errs := cgF2.errs ++ ["Incorrect #arguments passed"] }) :=
  ⟨rfl, by decide,
    (claim_C4 "f" (.cons (.NumberExprAST 1) .nil) cgF2 cgF2 ⟨"f", ["x", "y"]⟩ rfl).1
      (by decide)⟩

/-! ### Claim C5 -/

/-- C5 (amended): `getFunction` resolves a callee by checking the current
module first; on a miss it falls back to the prototype registry, generating a
fresh declaration into the current module from the stored prototype (and a
call with matching arity and successfully generated arguments then succeeds);
if the name is in neither, code generation of the call fails with the error
"Unknow function referenced" (the source's exact text). -/
theorem claim_C5 (callee : String) (s : CGState) :
    (∀ f, mfLookup s.modFuncs callee = some f → getFunction callee s = (some f, s)) ∧
    (∀ p, mfLookup s.modFuncs callee = none → pLookup s.protos callee = some p →
      getFunction callee s =
        (some ⟨p.name, p.args⟩,
          { s with modFuncs := s.modFuncs ++ [⟨p.name, p.args⟩] })) ∧
    (mfLookup s.modFuncs callee = none → pLookup s.protos callee = none →
      getFunction callee s = (none, s) ∧
      ∀ args, codegenE (.CallExprAst callee args) s =
        (none, { s with errs := s.errs ++ ["Unknow function referenced"] })) ∧
    (∀ p args vs s2, mfLookup s.modFuncs callee = none →
      pLookup s.protos callee = some p →
      p.args.length = args.length →
      codegenArgs args { s with modFuncs := s.modFuncs ++ [⟨p.name, p.args⟩] } =
        (some vs, s2) →
      codegenE (.CallExprAst callee args) s =
        (some (.reg (emit s2 (.callFn p.name vs)).1),
          (emit s2 (.callFn p.name vs)).2)) := by
  refine ⟨?_, ?_, ?_, ?_⟩
  · intro f hm
    simp [getFunction, hm]
  · intro p hm hp
    simp [getFunction, hm, hp, codegenProto]
  · intro hm hp
    have hg : getFunction callee s = (none, s) := by simp [getFunction, hm, hp]
    refine ⟨hg, ?_⟩
    intro args
    simp [codegenE_call, hg, logErrorV]
  · intro p args vs s2 hm hp hlen hargs
    have hg : getFunction callee s =
        (some ⟨p.name, p.args⟩,
          { s with modFuncs := s.modFuncs ++ [⟨p.name, p.args⟩] }) := by
      simp [getFunction, hm, hp, codegenProto]
    simp [codegenE_call, hg, hlen, hargs]

/-- Witness for `claim_C5`: `foo` is only in the registry; the call `foo(4)`
resolves through the registry and succeeds. -/
theorem claim_C5_witness :
    mfLookup ({ initCG with protos := [("foo", ⟨"foo", ["x"]⟩)] } : CGState).modFuncs
      "foo" = none ∧
    pLookup ({ initCG with protos := [("foo", ⟨"foo", ["x"]⟩)] } : CGState).protos
      "foo" = some ⟨"foo", ["x"]⟩ ∧
    codegenE (.CallExprAst "foo" (.cons (.NumberExprAST 4) .nil))
        { initCG with protos := [("foo", ⟨"foo", ["x"]⟩)] } =
      (some (.reg (emit { initCG with
            protos := [("foo", ⟨"foo", ["x"]⟩)]
            modFuncs := initCG.modFuncs ++ [⟨"foo", ["x"]⟩] }
          (.callFn "foo" [.constFP 4])).1),
        (emit { initCG with
            protos := [("foo", ⟨"foo", ["x"]⟩)]
            modFuncs := initCG.modFuncs ++ [⟨"foo", ["x"]⟩] }
          (.callFn "foo" [.constFP 4])).2) :=
  ⟨rfl, rfl,
    (claim_C5 "foo" { initCG with protos := [("foo", ⟨"foo", ["x"]⟩)] }).2.2.2
      ⟨"foo", ["x"]⟩ (.cons (.NumberExprAST 4) .nil) [.constFP 4] _ rfl rfl
      (by decide) rfl⟩

/-! ### Preservation of the prototype registry and module entries along
expression code generation (used by claim C9) -/

theorem mfLookup_append_ne_none (l : List ModFunc) (f : ModFunc) (n : String)
    (h : mfLookup l n ≠ none) : mfLookup (l ++ [f]) n = mfLookup l n := by
  induction l with
  | nil => simp [mfLookup] at h
  | cons g rest ih =>
      by_cases hg : g.name = n
      · simp [mfLookup, hg]
      · simp only [mfLookup, hg, if_false, List.cons_append] at *
        exact ih h

theorem mfFilterN_append (l l2 : List ModFunc) (n : String) :
    mfFilterN (l ++ l2) n = mfFilterN l n ++ mfFilterN l2 n := by
  induction l with
  | nil => rfl
  | cons g rest ih =>
      by_cases hg : g.name = n <;> simp [mfFilterN, hg, ih]

theorem pLookup_name (l : List (String × PrototypeAST)) (c : String)
    (p : PrototypeAST) (hwf : protosKeysWF l) (h : pLookup l c = some p) :
    p.name = c := by
  induction l with
  | nil => simp [pLookup] at h
  | cons q rest ih =>
      by_cases hq : q.1 = c
      · simp only [pLookup, hq, if_true] at h
        cases h
        exact (hwf q (by simp)).trans hq
      · simp only [pLookup, hq, if_false] at h
        exact ih (fun r hr => hwf r (by simp [hr])) h

theorem pmOk_rfl (s : CGState) : pmOk s s := ⟨rfl, fun _ _ h => ⟨h, rfl⟩⟩

theorem pmOk_trans {s s1 s2 : CGState} (h1 : pmOk s s1) (h2 : pmOk s1 s2) :
    pmOk s s2 := by
  refine ⟨h2.1.trans h1.1, fun hwf n hn => ?_⟩
  have c1 := h1.2 hwf n hn
  have hwf1 : protosKeysWF s1.protos := by rw [h1.1]; exact hwf
  have c2 := h2.2 hwf1 n c1.1
  exact ⟨c2.1, c2.2.trans c1.2⟩

theorem pmOk_of_projs {s t : CGState} (h1 : t.protos = s.protos)
    (h2 : t.modFuncs = s.modFuncs) : pmOk s t :=
  ⟨h1, fun _ n hn => ⟨by rw [h2]; exact hn, by rw [h2]⟩⟩

theorem binDispatch_pm (op : Char) (a b : Operand) (s2 : CGState) :
    pmOk s2 (binDispatch op a b s2).2 := by
  unfold binDispatch
  split_ifs <;> exact pmOk_of_projs rfl rfl

/-- `getFunction` never touches the registry, and can only add a module entry
for the (previously absent) callee itself. -/
theorem getFunction_pm (c : String) (s : CGState) : pmOk s (getFunction c s).2 := by
  unfold getFunction
  cases hm : mfLookup s.modFuncs c with
  | some f => exact pmOk_rfl s
  | none =>
      cases hp : pLookup s.protos c with
      | none => exact pmOk_rfl s
      | some p =>
          refine ⟨rfl, fun hwf n hn => ?_⟩
          have hname : p.name = c := pLookup_name s.protos c p hwf hp
          have hne : p.name ≠ n := by
            rintro rfl
            rw [hname] at hn
            exact hn hm
          constructor
          · simp only [codegenProto]
            rw [mfLookup_append_ne_none s.modFuncs _ n hn]
            exact hn
          · simp only [codegenProto]
            rw [mfFilterN_append]
            simp [mfFilterN, hne]

mutual

theorem cgPmE (e : ExprAST) (s : CGState) : pmOk s (codegenE e s).2 := by
  cases e with
  | NumberExprAST v => exact pmOk_rfl s
  | VariableExprAST nm =>
      rw [codegenE_var]
      rcases h : (nvIndex s.namedValues nm).1 with _ | x <;> simp only [h] <;>
        exact pmOk_of_projs rfl rfl
  | BinaryExprAST op l r =>
      rw [codegenE_bin]
      have hl := cgPmE l s
      have hr := cgPmE r (codegenE l s).2
      rcases h1 : (codegenE l s).1 with _ | a <;>
        rcases h2 : (codegenE r (codegenE l s).2).1 with _ | b <;>
        simp only [h1, h2]
      · exact pmOk_trans hl hr
      · exact pmOk_trans hl hr
      · exact pmOk_trans hl hr
      · exact pmOk_trans (pmOk_trans hl hr) (binDispatch_pm op a b _)
  | CallExprAst callee args =>
      rw [codegenE_call]
      have hg := getFunction_pm callee s
      rcases hf : (getFunction callee s).1 with _ | f
      · simp only [hf]
        exact pmOk_trans hg (pmOk_of_projs rfl rfl)
      · simp only [hf]
        by_cases hlen : f.args.length ≠ args.length
        · rw [if_pos hlen]
          exact pmOk_trans hg (pmOk_of_projs rfl rfl)
        · rw [if_neg hlen]
          have ha := cgPmArgs args (getFunction callee s).2
          rcases h2 : codegenArgs args (getFunction callee s).2 with ⟨r2, s2⟩
          rw [h2] at ha
          try simp only [h2]
          cases r2 with
          | none => exact pmOk_trans hg ha
          | some vs => exact pmOk_trans (pmOk_trans hg ha) (pmOk_of_projs rfl rfl)
  | IfExprAST c th el =>
      rw [codegenE_if]
      have hc := cgPmE c s
      rcases h1 : codegenE c s with ⟨rc, s1⟩
      rw [h1] at hc
      try simp only [h1]
      cases rc with
      | none => exact hc
      | some cv =>
          have hsetup : pmOk s1 (ifSetup s1 cv).1 := pmOk_of_projs rfl rfl
          have hth := cgPmE th (ifSetup s1 cv).1
          rcases h2 : codegenE th (ifSetup s1 cv).1 with ⟨rt, s7⟩
          rw [h2] at hth
          try simp only [h2]
          cases rt with
          | none => exact pmOk_trans hc (pmOk_trans hsetup hth)
          | some tv =>
              have hco : pmOk s s7 := pmOk_trans hc (pmOk_trans hsetup hth)
              have helse : pmOk s7
                  (ifElseEntry s7 (ifSetup s1 cv).2.2.1 (ifSetup s1 cv).2.2.2).1 :=
                pmOk_of_projs rfl rfl
              have hel := cgPmE el
                (ifElseEntry s7 (ifSetup s1 cv).2.2.1 (ifSetup s1 cv).2.2.2).1
              rcases h3 : codegenE el
                  (ifElseEntry s7 (ifSetup s1 cv).2.2.1 (ifSetup s1 cv).2.2.2).1 with
                ⟨re, s10⟩
              rw [h3] at hel
              try simp only [h3]
              cases re with
              | none => exact pmOk_trans hco (pmOk_trans helse hel)
              | some ev =>
                  exact pmOk_trans (pmOk_trans hco (pmOk_trans helse hel))
                    (pmOk_of_projs rfl rfl)
  | ForExprAST vn st en stp bd =>
      rw [codegenE_for]
      have hst := cgPmE st s
      rcases h1 : codegenE st s with ⟨rs, s1⟩
      rw [h1] at hst
      try simp only [h1]
      cases rs with
      | none => exact hst
      | some startV =>
          have hsetup : pmOk s1 (forSetup s1 vn startV).1 := pmOk_of_projs rfl rfl
          have hbd := cgPmE bd (forSetup s1 vn startV).1
          rcases h2 : codegenE bd (forSetup s1 vn startV).1 with ⟨rb, s5⟩
          rw [h2] at hbd
          try simp only [h2]
          cases rb with
          | none => exact pmOk_trans hst (pmOk_trans hsetup hbd)
          | some bv =>
              have hco : pmOk s s5 := pmOk_trans hst (pmOk_trans hsetup hbd)
              have hstep := cgPmStep stp s5
              rcases h3 : codegenStep stp s5 with ⟨rp, s6⟩
              rw [h3] at hstep
              try simp only [h3]
              cases rp with
              | none => exact pmOk_trans hco hstep
              | some stepV =>
                  have hemit : pmOk s6
                      (emit s6 (.fadd (.reg (forSetup s1 vn startV).2.2.1) stepV)).2 :=
                    pmOk_of_projs rfl rfl
                  have hen := cgPmE en
                    (emit s6 (.fadd (.reg (forSetup s1 vn startV).2.2.1) stepV)).2
                  rcases h4 : codegenE en
                      (emit s6 (.fadd (.reg (forSetup s1 vn startV).2.2.1) stepV)).2 with
                    ⟨rn, s7⟩
                  rw [h4] at hen
                  try simp only [h4]
                  cases rn with
                  | none =>
                      exact pmOk_trans hco (pmOk_trans hstep (pmOk_trans hemit hen))
                  | some endV =>
                      refine pmOk_trans hco
                        (pmOk_trans hstep (pmOk_trans hemit (pmOk_trans hen ?_)))
                      exact pmOk_of_projs rfl rfl

theorem cgPmStep (o : OptExprAST) (s : CGState) : pmOk s (codegenStep o s).2 := by
  cases o with
  | noneE => exact pmOk_rfl s
  | someE e => exact cgPmE e s

theorem cgPmArgs (l : ExprList) (s : CGState) : pmOk s (codegenArgs l s).2 := by
  cases l with
  | nil => exact pmOk_rfl s
  | cons a rest =>
      rw [codegenArgs_cons]
      have ha := cgPmE a s
      rcases h1 : codegenE a s with ⟨ra, s1⟩
      rw [h1] at ha
      try simp only [h1]
      cases ra with
      | none => exact ha
      | some v =>
          have hr := cgPmArgs rest s1
          rcases h2 : codegenArgs rest s1 with ⟨rr, s2⟩
          rw [h2] at hr
          try simp only [h2]
          cases rr with
          | none => exact pmOk_trans ha hr
          | some vs => exact pmOk_trans ha hr

end

/-! ### Claim C9 -/

theorem pSet_lookup (l : List (String × PrototypeAST)) (n : String)
    (p : PrototypeAST) : pLookup (pSet l n p) n = some p := by
  induction l with
  | nil => simp [pSet, pLookup]
  | cons q rest ih =>
      by_cases hq : q.1 = n
      · simp [pSet, pLookup, hq]
      · simp [pSet, pLookup, hq, ih]

theorem protosKeysWF_pSet (l : List (String × PrototypeAST)) (n : String)
    (p : PrototypeAST) (hwf : protosKeysWF l) (hp : p.name = n) :
    protosKeysWF (pSet l n p) := by
  induction l with
  | nil =>
      intro q hq
      simp only [pSet, List.mem_singleton] at hq
      subst hq
      exact hp
  | cons r rest ih =>
      obtain ⟨k, w⟩ := r
      have hwfRest : protosKeysWF rest :=
        fun t ht => hwf t (List.mem_cons_of_mem _ ht)
      intro q hq
      simp only [pSet] at hq
      by_cases hk : k = n
      · rw [if_pos hk] at hq
        rcases List.mem_cons.mp hq with rfl | hq
        · exact hp.trans hk.symm
        · exact hwf q (List.mem_cons_of_mem _ hq)
      · rw [if_neg hk] at hq
        rcases List.mem_cons.mp hq with rfl | hq
        · exact hwf (k, w) (List.mem_cons_self _ _)
        · exact ih hwfRest q hq

theorem mfLookup_none_of_filter_nil (l : List ModFunc) (n : String)
    (h : mfFilterN l n = []) : mfLookup l n = none := by
  induction l with
  | nil => rfl
  | cons f rest ih =>
      by_cases hf : f.name = n
      · simp [mfFilterN, hf] at h
      · simp only [mfFilterN, hf, if_false] at h
        simp only [mfLookup, hf, if_false]
        exact ih h

theorem mfFilterN_nil_of_lookup_none (l : List ModFunc) (n : String)
    (h : mfLookup l n = none) : mfFilterN l n = [] := by
  induction l with
  | nil => rfl
  | cons f rest ih =>
      by_cases hf : f.name = n
      · simp [mfLookup, hf] at h
      · simp only [mfLookup, hf, if_false] at h
        simp only [mfFilterN, hf, if_false]
        exact ih h

theorem mfErase_filterN (l : List ModFunc) (n : String) :
    mfFilterN (mfErase l n) n = (mfFilterN l n).tail := by
  induction l with
  | nil => rfl
  | cons f rest ih =>
      by_cases hf : f.name = n
      · simp [mfErase, mfFilterN, hf]
      · simp [mfErase, mfFilterN, hf, ih]

/-- C9: `FunctionAST::codegen` overwrites the registry entry for the
function's name with the new prototype before anything else (in particular
before the body is generated), and this update is not rolled back on body
failure: after a failed `def`, the registry still maps the name to the failed
definition's prototype even though the module holds no function of that name
(the partially built declaration was erased). -/
theorem claim_C9 (p : PrototypeAST) (bd : ExprAST) (s : CGState)
    (hwf : protosKeysWF s.protos) :
    pLookup ((codegenFunc ⟨p, bd⟩ s).2).protos p.name = some p ∧
    ((codegenFunc ⟨p, bd⟩ s).1 = none →
      mfLookup s.modFuncs p.name = none →
      mfLookup ((codegenFunc ⟨p, bd⟩ s).2).modFuncs p.name = none) := by
  simp only [codegenFunc]
  have hpm := getFunction_pm p.name { s with protos := pSet s.protos p.name p }
  rcases hf : (getFunction p.name { s with protos := pSet s.protos p.name p }).1
    with _ | theFn
  · try simp only [hf]
    refine ⟨?_, ?_⟩
    · rw [hpm.1]
      exact pSet_lookup s.protos p.name p
    · intro _ hnone
      exfalso
      have hm1 : mfLookup
          ({ s with protos := pSet s.protos p.name p } : CGState).modFuncs p.name =
          none := hnone
      unfold getFunction at hf
      rw [hm1] at hf
      rw [show pLookup ({ s with protos := pSet s.protos p.name p } : CGState).protos
          p.name = some p from pSet_lookup s.protos p.name p] at hf
      simp at hf
  · try simp only [hf]
    have hpmE := cgPmE bd
      { (newBlock (getFunction p.name { s with protos := pSet s.protos p.name p }).2
            true).2 with
        curBB := (newBlock
          (getFunction p.name { s with protos := pSet s.protos p.name p }).2 true).1,
        namedValues :=
          ((theFn.args.enum.map fun q => (q.2, some (Operand.arg q.1))).foldl
            (fun m q => nvSet m q.1 q.2) []) }
    rcases hbd : codegenE bd
        { (newBlock (getFunction p.name { s with protos := pSet s.protos p.name p }).2
              true).2 with
          curBB := (newBlock
            (getFunction p.name { s with protos := pSet s.protos p.name p }).2 true).1,
          namedValues :=
            ((theFn.args.enum.map fun q => (q.2, some (Operand.arg q.1))).foldl
              (fun m q => nvSet m q.1 q.2) []) } with ⟨rb, s4⟩
    rw [hbd] at hpmE
    try simp only [hbd]
    cases rb with
    | some retV =>
        refine ⟨?_, ?_⟩
        · show pLookup (emitTerm s4 (.ret retV)).protos p.name = some p
          show pLookup s4.protos p.name = some p
          rw [hpmE.1]
          show pLookup (getFunction p.name
            { s with protos := pSet s.protos p.name p }).2.protos p.name = some p
          rw [hpm.1]
          exact pSet_lookup s.protos p.name p
        · intro hcontra
          simp at hcontra
    | none =>
        refine ⟨?_, ?_⟩
        · show pLookup s4.protos p.name = some p
          rw [hpmE.1]
          show pLookup (getFunction p.name
            { s with protos := pSet s.protos p.name p }).2.protos p.name = some p
          rw [hpm.1]
          exact pSet_lookup s.protos p.name p
        · intro _ hnone
          show mfLookup (mfErase s4.modFuncs theFn.name) p.name = none
          have hm1 : mfLookup
              ({ s with protos := pSet s.protos p.name p } : CGState).modFuncs
              p.name = none := hnone
          have hfn : theFn = ⟨p.name, p.args⟩ ∧
              (getFunction p.name { s with protos := pSet s.protos p.name p }).2 =
                { s with protos := pSet s.protos p.name p,
                         modFuncs := s.modFuncs ++ [⟨p.name, p.args⟩] } := by
            have hfc := hf
            unfold getFunction at hfc
            rw [hm1] at hfc
            rw [show pLookup
                ({ s with protos := pSet s.protos p.name p } : CGState).protos
                p.name = some p from pSet_lookup s.protos p.name p] at hfc
            simp only [codegenProto] at hfc
            cases hfc
            refine ⟨rfl, ?_⟩
            unfold getFunction
            rw [hm1]
            rw [show pLookup
                ({ s with protos := pSet s.protos p.name p } : CGState).protos
                p.name = some p from pSet_lookup s.protos p.name p]
            rfl
          -- the module entries named p.name just before the body
          have hfilter0 : mfFilterN
              (getFunction p.name
                { s with protos := pSet s.protos p.name p }).2.modFuncs p.name =
              [⟨p.name, p.args⟩] := by
            rw [hfn.2]
            show mfFilterN (s.modFuncs ++ [⟨p.name, p.args⟩]) p.name = _
            rw [mfFilterN_append, mfFilterN_nil_of_lookup_none s.modFuncs p.name hnone]
            simp [mfFilterN]
          have hlk0 : mfLookup
              (getFunction p.name
                { s with protos := pSet s.protos p.name p }).2.modFuncs p.name ≠
              none := by
            rw [hfn.2]
            show mfLookup (s.modFuncs ++ [⟨p.name, p.args⟩]) p.name ≠ none
            intro hcon
            have := mfFilterN_nil_of_lookup_none _ p.name hcon
            rw [mfFilterN_append, mfFilterN_nil_of_lookup_none s.modFuncs p.name hnone]
              at this
            simp [mfFilterN] at this
          -- the body preserves those entries
          have hwfK : protosKeysWF
              ({ (newBlock (getFunction p.name
                    { s with protos := pSet s.protos p.name p }).2 true).2 with
                curBB := (newBlock (getFunction p.name
                  { s with protos := pSet s.protos p.name p }).2 true).1,
                namedValues :=
                  ((theFn.args.enum.map fun q => (q.2, some (Operand.arg q.1))).foldl
                    (fun m q => nvSet m q.1 q.2) []) } : CGState).protos := by
            show protosKeysWF (getFunction p.name
              { s with protos := pSet s.protos p.name p }).2.protos
            rw [hpm.1]
            exact protosKeysWF_pSet s.protos p.name p hwf rfl
          have hbody := hpmE.2 hwfK p.name hlk0
          have hfilter4 : mfFilterN s4.modFuncs p.name = [⟨p.name, p.args⟩] := by
            rw [hbody.2]
            exact hfilter0
          rw [hfn.1]
          apply mfLookup_none_of_filter_nil
          rw [mfErase_filterN, hfilter4]
          rfl

/-- Witness for `claim_C9`: the failing definition `def f(x) y` from the
initial state. -/
theorem claim_C9_witness :
    protosKeysWF initCG.protos ∧
    pLookup ((codegenFunc defBad initCG).2).protos "f" = some ⟨"f", ["x"]⟩ ∧
    (codegenFunc defBad initCG).1 = none ∧
    mfLookup ((codegenFunc defBad initCG).2).modFuncs "f" = none := by
  have hwf : protosKeysWF initCG.protos := by
    intro q hq
    simp [initCG] at hq
  have h := claim_C9 ⟨"f", ["x"]⟩ (.VariableExprAST "y") initCG hwf
  exact ⟨hwf, h.1, rfl, h.2 rfl rfl⟩

/-! ### Preservation of the variable scope table along successful expression
code generation (used by claim C6) -/

theorem nvLookup_wf (m : NamedVals) (n : String) (v : Option Operand)
    (hwf : nvWF m) (h : nvLookup m n = some v) : v.isSome = true := by
  induction m with
  | nil => simp [nvLookup] at h
  | cons q rest ih =>
      obtain ⟨k, w⟩ := q
      by_cases hk : k = n
      · simp only [nvLookup, if_pos hk] at h
        have hm := hwf (k, w) (List.mem_cons_self _ _)
        cases h
        exact hm
      · simp only [nvLookup, if_neg hk] at h
        exact ih (fun t ht => hwf t (List.mem_cons_of_mem _ ht)) h

theorem nvIndex_hit (m : NamedVals) (n : String) (v : Option Operand)
    (h : nvLookup m n = some v) : nvIndex m n = (v, m) := by
  unfold nvIndex
  rw [h]

theorem nvIndex_miss (m : NamedVals) (n : String)
    (h : nvLookup m n = none) : nvIndex m n = (none, m ++ [(n, none)]) := by
  unfold nvIndex
  rw [h]

theorem nvSet_nvSet (m : NamedVals) (k : String) (a b : Option Operand) :
    nvSet (nvSet m k a) k b = nvSet m k b := by
  induction m with
  | nil => simp [nvSet]
  | cons q rest ih =>
      obtain ⟨n, w⟩ := q
      by_cases hn : n = k
      · simp [nvSet, hn]
      · simp [nvSet, hn, ih]

theorem nvSet_self (m : NamedVals) (k : String) (v : Option Operand)
    (h : nvLookup m k = some v) : nvSet m k v = m := by
  induction m with
  | nil => simp [nvLookup] at h
  | cons q rest ih =>
      obtain ⟨n, w⟩ := q
      by_cases hn : n = k
      · simp only [nvLookup, hn, if_pos rfl] at h
        cases h
        simp [nvSet, hn]
      · simp only [nvLookup, hn, if_false] at h
        simp [nvSet, hn, ih h]

theorem nvSet_append_absent (m : NamedVals) (k : String) (a b : Option Operand)
    (h : nvLookup m k = none) : nvSet (m ++ [(k, a)]) k b = m ++ [(k, b)] := by
  induction m with
  | nil => simp [nvSet]
  | cons q rest ih =>
      obtain ⟨n, w⟩ := q
      by_cases hn : n = k
      · simp [nvLookup, hn] at h
      · simp only [nvLookup, hn, if_false] at h
        simp [nvSet, hn, ih h]

theorem nvErase_append_absent (m : NamedVals) (k : String) (a : Option Operand)
    (h : nvLookup m k = none) : nvErase (m ++ [(k, a)]) k = m := by
  induction m with
  | nil => simp [nvErase]
  | cons q rest ih =>
      obtain ⟨n, w⟩ := q
      by_cases hn : n = k
      · simp [nvLookup, hn] at h
      · simp only [nvLookup, hn, if_false] at h
        simp [nvErase, hn, ih h]

theorem nvWF_set_some (m : NamedVals) (k : String) (v : Operand)
    (hwf : nvWF m) : nvWF (nvSet m k (some v)) := by
  induction m with
  | nil =>
      intro q hq
      simp only [nvSet, List.mem_singleton] at hq
      subst hq
      rfl
  | cons r rest ih =>
      obtain ⟨n, w⟩ := r
      have hwfRest : nvWF rest := fun t ht => hwf t (List.mem_cons_of_mem _ ht)
      intro q hq
      simp only [nvSet] at hq
      by_cases hn : n = k
      · rw [if_pos hn] at hq
        rcases List.mem_cons.mp hq with rfl | hq
        · rfl
        · exact hwf q (List.mem_cons_of_mem _ hq)
      · rw [if_neg hn] at hq
        rcases List.mem_cons.mp hq with rfl | hq
        · exact hwf (n, w) (List.mem_cons_self _ _)
        · exact ih hwfRest q hq

theorem nvWF_append_some (m : NamedVals) (k : String) (v : Operand)
    (hwf : nvWF m) : nvWF (m ++ [(k, some v)]) := by
  intro q hq
  rcases List.mem_append.mp hq with hq | hq
  · exact hwf q hq
  · rw [List.mem_singleton.mp hq]
    rfl

theorem getFunction_nv (c : String) (s : CGState) :
    (getFunction c s).2.namedValues = s.namedValues := by
  unfold getFunction
  cases mfLookup s.modFuncs c with
  | some f => rfl
  | none =>
      cases pLookup s.protos c with
      | some p => rfl
      | none => rfl

theorem binDispatch_nv (op : Char) (a b : Operand) (s2 : CGState) :
    (binDispatch op a b s2).2.namedValues = s2.namedValues := by
  unfold binDispatch
  split_ifs <;> rfl

theorem forSetup_nv (s1 : CGState) (vn : String) (startV : Operand) :
    (forSetup s1 vn startV).1.namedValues =
      nvSet (nvIndex s1.namedValues vn).2 vn
        (some (.reg (forSetup s1 vn startV).2.2.1)) := rfl

theorem forSetup_old (s1 : CGState) (vn : String) (startV : Operand) :
    (forSetup s1 vn startV).2.2.2 = (nvIndex s1.namedValues vn).1 := rfl

theorem forFinish_nv (s7 : CGState) (vn : String) (loopBB phiReg nextReg : Nat)
    (endV : Operand) (oldV : Option Operand) :
    (forFinish s7 vn loopBB phiReg nextReg endV oldV).2.namedValues =
      (match oldV with
       | some ov => nvSet s7.namedValues vn (some ov)
       | none => nvErase s7.namedValues vn) := rfl

mutual

theorem cgNvE (e : ExprAST) (s : CGState) (hwf : nvWF s.namedValues)
    (hs : (codegenE e s).1.isSome = true) :
    (codegenE e s).2.namedValues = s.namedValues := by
  cases e with
  | NumberExprAST v => rfl
  | VariableExprAST nm =>
      rw [codegenE_var] at hs ⊢
      rcases hl : nvLookup s.namedValues nm with _ | v
      · rw [nvIndex_miss s.namedValues nm hl] at hs
        simp at hs
      · rw [nvIndex_hit s.namedValues nm v hl] at hs ⊢
        cases v with
        | none => simp at hs
        | some x => rfl
  | BinaryExprAST op l r =>
      rw [codegenE_bin] at hs ⊢
      rcases h1 : (codegenE l s).1 with _ | a <;>
        rcases h2 : (codegenE r (codegenE l s).2).1 with _ | b <;>
        simp only [h1, h2] at hs ⊢
      · simp at hs
      · simp at hs
      · simp at hs
      · have hnl : (codegenE l s).2.namedValues = s.namedValues :=
          cgNvE l s hwf (by rw [h1]; rfl)
        have hwf1 : nvWF (codegenE l s).2.namedValues := by rw [hnl]; exact hwf
        have hnr : (codegenE r (codegenE l s).2).2.namedValues =
            (codegenE l s).2.namedValues :=
          cgNvE r (codegenE l s).2 hwf1 (by rw [h2]; rfl)
        rw [binDispatch_nv, hnr, hnl]
  | CallExprAst callee args =>
      rw [codegenE_call] at hs ⊢
      rcases hf : (getFunction callee s).1 with _ | f <;> simp only [hf] at hs ⊢
      · simp [logErrorV] at hs
      · by_cases hlen : f.args.length ≠ args.length
        · rw [if_pos hlen] at hs
          simp [logErrorV] at hs
        · rw [if_neg hlen] at hs ⊢
          have hwfg : nvWF (getFunction callee s).2.namedValues := by
            rw [getFunction_nv]; exact hwf
          rcases h2 : codegenArgs args (getFunction callee s).2 with ⟨ra, s2⟩
          try simp only [h2] at hs ⊢
          cases ra with
          | none => simp at hs
          | some vs =>
              have hna : s2.namedValues = (getFunction callee s).2.namedValues := by
                have := cgNvArgs args (getFunction callee s).2 hwfg (by rw [h2]; rfl)
                rw [h2] at this
                exact this
              show (emit s2 (.callFn f.name vs)).2.namedValues = s.namedValues
              show s2.namedValues = s.namedValues
              rw [hna, getFunction_nv]
  | IfExprAST c th el =>
      rw [codegenE_if] at hs ⊢
      rcases h1 : codegenE c s with ⟨rc, s1⟩
      try simp only [h1] at hs ⊢
      cases rc with
      | none => simp at hs
      | some cv =>
          have hn1 : s1.namedValues = s.namedValues := by
            have := cgNvE c s hwf (by rw [h1]; rfl)
            rw [h1] at this
            exact this
          have hwf1 : nvWF (ifSetup s1 cv).1.namedValues := by
            show nvWF s1.namedValues
            rw [hn1]; exact hwf
          rcases h2 : codegenE th (ifSetup s1 cv).1 with ⟨rt, s7⟩
          try simp only [h2] at hs ⊢
          cases rt with
          | none => simp at hs
          | some tv =>
              have hn7 : s7.namedValues = s1.namedValues := by
                have := cgNvE th (ifSetup s1 cv).1 hwf1 (by rw [h2]; rfl)
                rw [h2] at this
                exact this
              have hwf7 : nvWF
                  (ifElseEntry s7 (ifSetup s1 cv).2.2.1 (ifSetup s1 cv).2.2.2).1.namedValues := by
                show nvWF s7.namedValues
                rw [hn7, hn1]; exact hwf
              rcases h3 : codegenE el
                  (ifElseEntry s7 (ifSetup s1 cv).2.2.1 (ifSetup s1 cv).2.2.2).1 with
                ⟨re, s10⟩
              try simp only [h3] at hs ⊢
              cases re with
              | none => simp at hs
              | some ev =>
                  have hn10 : s10.namedValues = s7.namedValues := by
                    have := cgNvE el
                      (ifElseEntry s7 (ifSetup s1 cv).2.2.1 (ifSetup s1 cv).2.2.2).1
                      hwf7 (by rw [h3]; rfl)
                    rw [h3] at this
                    exact this
                  show s10.namedValues = s.namedValues
                  rw [hn10, hn7, hn1]
  | ForExprAST vn st en stp bd =>
      rw [codegenE_for] at hs ⊢
      rcases h1 : codegenE st s with ⟨rs, s1⟩
      try simp only [h1] at hs ⊢
      cases rs with
      | none => simp at hs
      | some startV =>
          have hn1 : s1.namedValues = s.namedValues := by
            have := cgNvE st s hwf (by rw [h1]; rfl)
            rw [h1] at this
            exact this
          have hwf1 : nvWF s1.namedValues := by rw [hn1]; exact hwf
          rcases h2 : codegenE bd (forSetup s1 vn startV).1 with ⟨rb, s5⟩
          try simp only [h2] at hs ⊢
          cases rb with
          | none => simp at hs
          | some bv =>
              rcases h3 : codegenStep stp s5 with ⟨rp, s6⟩
              try simp only [h3] at hs ⊢
              cases rp with
              | none => simp at hs
              | some stepV =>
                  rcases h4 : codegenE en
                      (emit s6 (.fadd (.reg (forSetup s1 vn startV).2.2.1) stepV)).2 with
                    ⟨rn, s7⟩
                  try simp only [h4] at hs ⊢
                  cases rn with
                  | none => simp at hs
                  | some endV =>
                      rw [forFinish_nv, forSetup_old]
                      -- chain the body/step/end states back to the loop entry
                      rcases hl : nvLookup s1.namedValues vn with _ | oldv
                      · -- no prior binding: the null entry inserted by the
                        -- `NamedValues[VarName]` read is erased at the end
                        have hsetupNv : (forSetup s1 vn startV).1.namedValues =
                            s1.namedValues ++
                              [(vn, some (.reg (forSetup s1 vn startV).2.2.1))] := by
                          rw [forSetup_nv, nvIndex_miss s1.namedValues vn hl]
                          exact nvSet_append_absent s1.namedValues vn none _ hl
                        have hwfSet : nvWF (forSetup s1 vn startV).1.namedValues := by
                          rw [hsetupNv]
                          exact nvWF_append_some s1.namedValues vn _ hwf1
                        have hn5 : s5.namedValues =
                            (forSetup s1 vn startV).1.namedValues := by
                          have := cgNvE bd (forSetup s1 vn startV).1 hwfSet
                            (by rw [h2]; rfl)
                          rw [h2] at this
                          exact this
                        have hwf5 : nvWF s5.namedValues := by rw [hn5]; exact hwfSet
                        have hn6 : s6.namedValues = s5.namedValues := by
                          have := cgNvStep stp s5 hwf5 (by rw [h3]; rfl)
                          rw [h3] at this
                          exact this
                        have hwf6 : nvWF
                            (emit s6 (.fadd (.reg (forSetup s1 vn startV).2.2.1)
                              stepV)).2.namedValues := by
                          show nvWF s6.namedValues
                          rw [hn6]; exact hwf5
                        have hn7 : s7.namedValues = s6.namedValues := by
                          have := cgNvE en
                            (emit s6 (.fadd (.reg (forSetup s1 vn startV).2.2.1)
                              stepV)).2 hwf6 (by rw [h4]; rfl)
                          rw [h4] at this
                          exact this
                        rw [nvIndex_miss s1.namedValues vn hl]
                        show nvErase s7.namedValues vn = s.namedValues
                        rw [hn7, hn6, hn5, hsetupNv,
                          nvErase_append_absent s1.namedValues vn _ hl, hn1]
                      · -- prior binding: restored afterwards
                        obtain ⟨x, rfl⟩ : ∃ x, oldv = some x := by
                          have := nvLookup_wf s1.namedValues vn oldv hwf1 hl
                          cases oldv with
                          | none => simp at this
                          | some x => exact ⟨x, rfl⟩
                        have hsetupNv : (forSetup s1 vn startV).1.namedValues =
                            nvSet s1.namedValues vn
                              (some (.reg (forSetup s1 vn startV).2.2.1)) := by
                          rw [forSetup_nv, nvIndex_hit s1.namedValues vn _ hl]
                        have hwfSet : nvWF (forSetup s1 vn startV).1.namedValues := by
                          rw [hsetupNv]
                          exact nvWF_set_some s1.namedValues vn _ hwf1
                        have hn5 : s5.namedValues =
                            (forSetup s1 vn startV).1.namedValues := by
                          have := cgNvE bd (forSetup s1 vn startV).1 hwfSet
                            (by rw [h2]; rfl)
                          rw [h2] at this
                          exact this
                        have hwf5 : nvWF s5.namedValues := by rw [hn5]; exact hwfSet
                        have hn6 : s6.namedValues = s5.namedValues := by
                          have := cgNvStep stp s5 hwf5 (by rw [h3]; rfl)
                          rw [h3] at this
                          exact this
                        have hwf6 : nvWF
                            (emit s6 (.fadd (.reg (forSetup s1 vn startV).2.2.1)
                              stepV)).2.namedValues := by
                          show nvWF s6.namedValues
                          rw [hn6]; exact hwf5
                        have hn7 : s7.namedValues = s6.namedValues := by
                          have := cgNvE en
                            (emit s6 (.fadd (.reg (forSetup s1 vn startV).2.2.1)
                              stepV)).2 hwf6 (by rw [h4]; rfl)
                          rw [h4] at this
                          exact this
                        rw [nvIndex_hit s1.namedValues vn _ hl]
                        show nvSet s7.namedValues vn (some x) = s.namedValues
                        rw [hn7, hn6, hn5, hsetupNv, nvSet_nvSet,
                          nvSet_self s1.namedValues vn (some x) hl, hn1]

theorem cgNvStep (o : OptExprAST) (s : CGState) (hwf : nvWF s.namedValues)
    (hs : (codegenStep o s).1.isSome = true) :
    (codegenStep o s).2.namedValues = s.namedValues := by
  cases o with
  | noneE => rfl
  | someE e => exact cgNvE e s hwf hs

theorem cgNvArgs (l : ExprList) (s : CGState) (hwf : nvWF s.namedValues)
    (hs : (codegenArgs l s).1.isSome = true) :
    (codegenArgs l s).2.namedValues = s.namedValues := by
  cases l with
  | nil => rfl
  | cons a rest =>
      rw [codegenArgs_cons] at hs ⊢
      rcases h1 : codegenE a s with ⟨ra, s1⟩
      try simp only [h1] at hs ⊢
      cases ra with
      | none => simp at hs
      | some v =>
          have hn1 : s1.namedValues = s.namedValues := by
            have := cgNvE a s hwf (by rw [h1]; rfl)
            rw [h1] at this
            exact this
          have hwf1 : nvWF s1.namedValues := by rw [hn1]; exact hwf
          rcases h2 : codegenArgs rest s1 with ⟨rr, s2⟩
          try simp only [h2] at hs ⊢
          cases rr with
          | none => simp at hs
          | some vs =>
              have hn2 : s2.namedValues = s1.namedValues := by
                have := cgNvArgs rest s1 hwf1 (by rw [h2]; rfl)
                rw [h2] at this
                exact this
              show s2.namedValues = s.namedValues
              rw [hn2, hn1]

end

/-! ### Claim C6 -/

/-- C6: after a successful `ForExprAST::codegen`, the variable scope table is
identical to the table before it (so in particular the loop-variable name is
restored to its prior binding, or absent again if it had none, and all other
names are untouched).  The hypothesis `nvWF` says the incoming table has no
null entries — true of every table the program builds, since
`FunctionAST::codegen` fills it with argument values and the only null
entries ever created are the transient `operator[]` insertions that the
`for` codegen itself removes. -/
theorem claim_C6 (vn : String) (st en : ExprAST) (stp : OptExprAST) (bd : ExprAST)
    (s : CGState) (r : Operand) (s2 : CGState)
    (hwf : nvWF s.namedValues)
    (h : codegenE (.ForExprAST vn st en stp bd) s = (some r, s2)) :
    s2.namedValues = s.namedValues := by
  have := cgNvE (.ForExprAST vn st en stp bd) s hwf (by rw [h]; rfl)
  rw [h] at this
  exact this

/-- Witness for `claim_C6`: a loop whose variable `x` shadows the enclosing
parameter `x`; the binding is restored after the loop. -/
theorem claim_C6_witness :
    nvWF cgC6.namedValues ∧
    (codegenE (.ForExprAST "x" (.NumberExprAST 1) (.NumberExprAST 2) .noneE
        (.NumberExprAST 3)) cgC6).2.namedValues = cgC6.namedValues := by
  have hwf : nvWF cgC6.namedValues := by
    intro q hq
    simp only [cgC6, initCG, List.mem_singleton] at hq
    subst hq
    rfl
  refine ⟨hwf, ?_⟩
  exact claim_C6 "x" (.NumberExprAST 1) (.NumberExprAST 2) .noneE
    (.NumberExprAST 3) cgC6 (.constFP 0)
    ((codegenE (.ForExprAST "x" (.NumberExprAST 1) (.NumberExprAST 2) .noneE
      (.NumberExprAST 3)) cgC6).2) hwf rfl

/-! ### The operator-precedence table along a whole session (claim C7)

`GetTokPrecedence` probes `BinopPrecedence[CurTok]` with `std::map::operator[]`
and therefore grows the table by zero-valued entries (the content of claim
C7's counterexample); the lemmas below show that the *positive-precedence*
content of the table — the part that determines every parse — never changes:
it stays exactly the six seeded operators. -/

theorem advanceP_ops (s : PState) : (advanceP s).ops = s.ops := by
  obtain ⟨cur, rest, ops⟩ := s
  cases rest <;> rfl

theorem opLookup_append_zero (m : OpMap) (b c : Char) :
    opLookup (m ++ [(b, 0)]) c =
      (match opLookup m c with
       | some v => some v
       | none => if b = c then some 0 else none) := by
  induction m with
  | nil => rfl
  | cons q rest ih =>
      obtain ⟨k, v⟩ := q
      by_cases hk : k = c
      · simp [opLookup, hk]
      · simp [opLookup, hk, ih]

theorem posPre_append_zero (m : OpMap) (b c : Char) :
    posPre (m ++ [(b, 0)]) c = posPre m c := by
  unfold posPre
  rw [opLookup_append_zero]
  cases h : opLookup m c with
  | some v => rfl
  | none =>
      by_cases hbc : b = c
      · simp [hbc]
      · simp [hbc]

theorem opIndex_posPre (m : OpMap) (b c : Char) :
    posPre (opIndex m b).2 c = posPre m c := by
  unfold opIndex
  cases h : opLookup m b with
  | some v => rfl
  | none => exact posPre_append_zero m b c

theorem GetTokPrecedence_posPre (s : PState) (c : Char) :
    posPre (GetTokPrecedence s).2.ops c = posPre s.ops c := by
  obtain ⟨cur, rest, ops⟩ := s
  cases cur with
  | tok_char b =>
      show posPre ((if b.toNat ≤ 127 then
          ((if (opIndex ops b).1 ≤ 0 then -1 else (opIndex ops b).1),
            ({ cur := .tok_char b, rest := rest, ops := (opIndex ops b).2 } : PState))
        else (-1, ⟨.tok_char b, rest, ops⟩)) : Int × PState).2.ops c = posPre ops c
      split_ifs
      · exact opIndex_posPre ops b c
      · exact opIndex_posPre ops b c
      · rfl
  | tok_eof => rfl
  | tok_def => rfl
  | tok_ext => rfl
  | tok_identifier n => rfl
  | tok_number v => rfl
  | tok_if => rfl
  | tok_then => rfl
  | tok_else => rfl
  | tok_for => rfl
  | tok_in => rfl

theorem ParseExpression_succ (f : Nat) (s : PState) :
    ParseExpression (f + 1) s =
      (match ParsePrimary f s with
       | (none, s1) => (none, s1)
       | (some lhs, s1) => ParseBinOpRHS f 0 lhs s1) := rfl

theorem ParsePrimary_succ (f : Nat) (s : PState) :
    ParsePrimary (f + 1) s =
      (match s.cur with
       | .tok_identifier _ => ParseIdentifierExpr f s
       | .tok_number _ => ParseNumberExpr s
       | .tok_char '(' => ParseParenExpr f s
       | .tok_if => ParseIfExpr f s
       | .tok_for => ParseForExpr f s
       | _ => (none, s)) := rfl

theorem ParseParenExpr_succ (f : Nat) (s : PState) :
    ParseParenExpr (f + 1) s =
      (match ParseExpression f (advanceP s) with
       | (none, s2) => (none, s2)
       | (some v, s2) =>
           if s2.cur ≠ .tok_char ')' then (none, s2)
           else (some v, advanceP s2)) := rfl

theorem ParseIdentifierExpr_succ (f : Nat) (s : PState) :
    ParseIdentifierExpr (f + 1) s =
      (match s.cur with
       | .tok_identifier idName =>
           if (advanceP s).cur ≠ .tok_char '(' then
             (some (.VariableExprAST idName), advanceP s)
           else
             if (advanceP (advanceP s)).cur = .tok_char ')' then
               (some (.CallExprAst idName .nil), advanceP (advanceP (advanceP s)))
             else
               match ParseCallArgs f [] (advanceP (advanceP s)) with
               | (none, s3) => (none, s3)
               | (some args, s3) =>
                   (some (.CallExprAst idName (.ofList args)), advanceP s3)
       | _ => (none, s)) := rfl

theorem ParseCallArgs_succ (f : Nat) (acc : List ExprAST) (s : PState) :
    ParseCallArgs (f + 1) acc s =
      (match ParseExpression f s with
       | (none, s1) => (none, s1)
       | (some a, s1) =>
           if s1.cur = .tok_char ')' then (some (acc ++ [a]), s1)
           else if s1.cur ≠ .tok_char ',' then (none, s1)
           else ParseCallArgs f (acc ++ [a]) (advanceP s1)) := rfl

theorem ParseIfExpr_succ (f : Nat) (s : PState) :
    ParseIfExpr (f + 1) s =
      (match ParseExpression f (advanceP s) with
       | (none, s2) => (none, s2)
       | (some c, s2) =>
           if s2.cur ≠ .tok_then then (none, s2)
           else
             match ParseExpression f (advanceP s2) with
             | (none, s3) => (none, s3)
             | (some t, s3) =>
                 if s3.cur ≠ .tok_else then (none, s3)
                 else
                   match ParseExpression f (advanceP s3) with
                   | (none, s4) => (none, s4)
                   | (some e, s4) => (some (.IfExprAST c t e), s4)) := rfl

theorem ParseForExpr_succ (f : Nat) (s : PState) :
    ParseForExpr (f + 1) s =
      (match (advanceP s).cur with
       | .tok_identifier idName =>
           if (advanceP (advanceP s)).cur ≠ .tok_char '=' then
             (none, advanceP (advanceP s))
           else
             match ParseExpression f (advanceP (advanceP (advanceP s))) with
             | (none, s3) => (none, s3)
             | (some st, s3) =>
                 if s3.cur ≠ .tok_char ',' then (none, s3)
                 else
                   match ParseExpression f (advanceP s3) with
                   | (none, s4) => (none, s4)
                   | (some en, s4) =>
                       match
                         (if s4.cur = .tok_char ',' then
                           match ParseExpression f (advanceP s4) with
                           | (none, s5) => (none, (none, s5))
                           | (some sp, s5) => (some sp, (some (), s5))
                         else (none, (some (), s4)) :
                           Option ExprAST × (Option Unit × PState)) with
                       | (_, (none, s5)) => (none, s5)
                       | (sp, (some _, s5)) =>
                           if s5.cur ≠ .tok_in then (none, s5)
                           else
                             match ParseExpression f (advanceP s5) with
                             | (none, s6) => (none, s6)
                             | (some bd, s6) =>
                                 (some (.ForExprAST idName st en (.ofOption sp) bd),
                                   s6)
       | _ => (none, advanceP s)) := rfl

theorem ParseBinOpRHS_succ (f : Nat) (exprPrec : Int) (lhs : ExprAST) (s : PState) :
    ParseBinOpRHS (f + 1) exprPrec lhs s =
      (if (GetTokPrecedence s).1 < exprPrec then (some lhs, (GetTokPrecedence s).2)
       else
         match (GetTokPrecedence s).2.cur with
         | .tok_char opc =>
             match ParsePrimary f (advanceP (GetTokPrecedence s).2) with
             | (none, s3) => (none, s3)
             | (some rhs0, s3) =>
                 if (GetTokPrecedence s).1 < (GetTokPrecedence s3).1 then
                   match ParseBinOpRHS f ((GetTokPrecedence s).1 + 1) rhs0
                       (GetTokPrecedence s3).2 with
                   | (none, s5) => (none, s5)
                   | (some rhs1, s5) =>
                       ParseBinOpRHS f exprPrec (.BinaryExprAST opc lhs rhs1) s5
                 else
                   ParseBinOpRHS f exprPrec (.BinaryExprAST opc lhs rhs0)
                     (GetTokPrecedence s3).2
         | _ => (none, (GetTokPrecedence s).2)) := rfl

/-- Fuel induction: no parser function changes the positive-precedence content
of the operator table (pointwise at every character). -/
theorem parserPosPre (f : Nat) :
    (∀ s c, posPre (ParseExpression f s).2.ops c = posPre s.ops c) ∧
    (∀ s c, posPre (ParsePrimary f s).2.ops c = posPre s.ops c) ∧
    (∀ s c, posPre (ParseParenExpr f s).2.ops c = posPre s.ops c) ∧
    (∀ s c, posPre (ParseIdentifierExpr f s).2.ops c = posPre s.ops c) ∧
    (∀ acc s c, posPre (ParseCallArgs f acc s).2.ops c = posPre s.ops c) ∧
    (∀ s c, posPre (ParseIfExpr f s).2.ops c = posPre s.ops c) ∧
    (∀ s c, posPre (ParseForExpr f s).2.ops c = posPre s.ops c) ∧
    (∀ p lhs s c, posPre (ParseBinOpRHS f p lhs s).2.ops c = posPre s.ops c) := by
  induction f with
  | zero =>
      exact ⟨fun s c => rfl, fun s c => rfl, fun s c => rfl, fun s c => rfl,
        fun acc s c => rfl, fun s c => rfl, fun s c => rfl, fun p lhs s c => rfl⟩
  | succ f ih =>
      obtain ⟨IHe, IHp, IHparen, IHid, IHargs, IHif, IHfor, IHrhs⟩ := ih
      have hExpr : ∀ s c, posPre (ParseExpression (f + 1) s).2.ops c =
          posPre s.ops c := by
        intro s c
        rw [ParseExpression_succ]
        split
        · rename_i s1 heq
          have h := IHp s c
          rw [heq] at h
          exact h
        · rename_i lhs s1 heq
          have h := IHp s c
          rw [heq] at h
          rw [IHrhs 0 lhs s1 c, h]
      have hPrim : ∀ s c, posPre (ParsePrimary (f + 1) s).2.ops c =
          posPre s.ops c := by
        intro s c
        rw [ParsePrimary_succ]
        split
        · exact IHid s c
        · show posPre (ParseNumberExpr s).2.ops c = posPre s.ops c
          unfold ParseNumberExpr
          split
          · show posPre (advanceP s).ops c = posPre s.ops c
            rw [advanceP_ops]
          · rfl
        · exact IHparen s c
        · exact IHif s c
        · exact IHfor s c
        · rfl
      have hParen : ∀ s c, posPre (ParseParenExpr (f + 1) s).2.ops c =
          posPre s.ops c := by
        intro s c
        rw [ParseParenExpr_succ]
        split
        · rename_i s2 heq
          have h := IHe (advanceP s) c
          rw [heq] at h
          rw [h, advanceP_ops]
        · rename_i v s2 heq
          have h := IHe (advanceP s) c
          rw [heq] at h
          split_ifs
          · rw [h, advanceP_ops]
          · rw [advanceP_ops, h, advanceP_ops]
      have hId : ∀ s c, posPre (ParseIdentifierExpr (f + 1) s).2.ops c =
          posPre s.ops c := by
        intro s c
        rw [ParseIdentifierExpr_succ]
        split
        · split_ifs
          · rw [advanceP_ops]
          · rw [advanceP_ops, advanceP_ops, advanceP_ops]
          · split
            · rename_i s3 heq2
              have h := IHargs [] (advanceP (advanceP s)) c
              rw [heq2] at h
              rw [h, advanceP_ops, advanceP_ops]
            · rename_i args s3 heq2
              have h := IHargs [] (advanceP (advanceP s)) c
              rw [heq2] at h
              rw [advanceP_ops, h, advanceP_ops, advanceP_ops]
        · rfl
      have hArgs : ∀ acc s c, posPre (ParseCallArgs (f + 1) acc s).2.ops c =
          posPre s.ops c := by
        intro acc s c
        rw [ParseCallArgs_succ]
        split
        · rename_i s1 heq
          have h := IHe s c
          rw [heq] at h
          exact h
        · rename_i a s1 heq
          have h := IHe s c
          rw [heq] at h
          split_ifs
          · exact h
          · exact h
          · rw [IHargs (acc ++ [a]) (advanceP s1) c, advanceP_ops, h]
      have hIf : ∀ s c, posPre (ParseIfExpr (f + 1) s).2.ops c =
          posPre s.ops c := by
        intro s c
        rw [ParseIfExpr_succ]
        split
        · rename_i s2 heq
          have h := IHe (advanceP s) c
          rw [heq] at h
          rw [h, advanceP_ops]
        · rename_i cnd s2 heq
          have h2 := IHe (advanceP s) c
          rw [heq] at h2
          have h2' : posPre s2.ops c = posPre s.ops c := by rw [h2, advanceP_ops]
          split_ifs
          · exact h2'
          · split
            · rename_i s3 heq3
              have h3 := IHe (advanceP s2) c
              rw [heq3] at h3
              rw [h3, advanceP_ops, h2']
            · rename_i t s3 heq3
              have h3 := IHe (advanceP s2) c
              rw [heq3] at h3
              have h3' : posPre s3.ops c = posPre s.ops c := by
                rw [h3, advanceP_ops, h2']
              split_ifs
              · exact h3'
              · split
                · rename_i s4 heq4
                  have h4 := IHe (advanceP s3) c
                  rw [heq4] at h4
                  rw [h4, advanceP_ops, h3']
                · rename_i e s4 heq4
                  have h4 := IHe (advanceP s3) c
                  rw [heq4] at h4
                  rw [h4, advanceP_ops, h3']
      have hFor : ∀ s c, posPre (ParseForExpr (f + 1) s).2.ops c =
          posPre s.ops c := by
        intro s c
        rw [ParseForExpr_succ]
        split
        · rename_i idName heq
          split_ifs
          · rw [advanceP_ops, advanceP_ops]
          · split
            · rename_i s3 heq3
              have h3 := IHe (advanceP (advanceP (advanceP s))) c
              rw [heq3] at h3
              rw [h3, advanceP_ops, advanceP_ops, advanceP_ops]
            · rename_i st s3 heq3
              have h3 := IHe (advanceP (advanceP (advanceP s))) c
              rw [heq3] at h3
              have h3' : posPre s3.ops c = posPre s.ops c := by
                rw [h3, advanceP_ops, advanceP_ops, advanceP_ops]
              split_ifs
              · exact h3'
              · split
                · rename_i s4 heq4
                  have h4 := IHe (advanceP s3) c
                  rw [heq4] at h4
                  rw [h4, advanceP_ops, h3']
                · rename_i en s4 heq4
                  have h4 := IHe (advanceP s3) c
                  rw [heq4] at h4
                  have h4' : posPre s4.ops c = posPre s.ops c := by
                    rw [h4, advanceP_ops, h3']
                  have hE : posPre ((if s4.cur = .tok_char ',' then
                      (match ParseExpression f (advanceP s4) with
                       | (none, s5) => (none, (none, s5))
                       | (some sp, s5) => (some sp, (some (), s5)))
                    else (none, (some (), s4)) :
                      Option ExprAST × (Option Unit × PState))).2.2.ops c =
                      posPre s4.ops c := by
                    split_ifs
                    · split
                      · rename_i s5 heq5
                        have h5 := IHe (advanceP s4) c
                        rw [heq5] at h5
                        rw [h5, advanceP_ops]
                      · rename_i sp s5 heq5
                        have h5 := IHe (advanceP s4) c
                        rw [heq5] at h5
                        rw [h5, advanceP_ops]
                    · rfl
                  split
                  · rename_i x s5 heq5
                    rw [heq5] at hE
                    exact hE.trans h4'
                  · rename_i sp u s5 heq5
                    rw [heq5] at hE
                    have h5' : posPre s5.ops c = posPre s.ops c := hE.trans h4'
                    split_ifs
                    · exact h5'
                    · split
                      · rename_i s6 heq6
                        have h6 := IHe (advanceP s5) c
                        rw [heq6] at h6
                        rw [h6, advanceP_ops, h5']
                      · rename_i bd s6 heq6
                        have h6 := IHe (advanceP s5) c
                        rw [heq6] at h6
                        rw [h6, advanceP_ops, h5']
        · rw [advanceP_ops]
      have hRhs : ∀ p lhs s c, posPre (ParseBinOpRHS (f + 1) p lhs s).2.ops c =
          posPre s.ops c := by
        intro p lhs s c
        rw [ParseBinOpRHS_succ]
        split_ifs
        · exact GetTokPrecedence_posPre s c
        · split
          · rename_i opc heq
            split
            · rename_i s3 heq3
              have h3 := IHp (advanceP (GetTokPrecedence s).2) c
              rw [heq3] at h3
              rw [h3, advanceP_ops, GetTokPrecedence_posPre]
            · rename_i rhs0 s3 heq3
              have h3 := IHp (advanceP (GetTokPrecedence s).2) c
              rw [heq3] at h3
              have h3' : posPre s3.ops c = posPre s.ops c := by
                rw [h3, advanceP_ops, GetTokPrecedence_posPre]
              split_ifs
              · split
                · rename_i s5 heq5
                  have h5 := IHrhs ((GetTokPrecedence s).1 + 1) rhs0
                    (GetTokPrecedence s3).2 c
                  rw [heq5] at h5
                  rw [h5, GetTokPrecedence_posPre, h3']
                · rename_i rhs1 s5 heq5
                  have h5 := IHrhs ((GetTokPrecedence s).1 + 1) rhs0
                    (GetTokPrecedence s3).2 c
                  rw [heq5] at h5
                  rw [IHrhs p (.BinaryExprAST opc lhs rhs1) s5 c, h5,
                    GetTokPrecedence_posPre, h3']
              · rw [IHrhs p (.BinaryExprAST opc lhs rhs0) (GetTokPrecedence s3).2 c,
                  GetTokPrecedence_posPre, h3']
          · exact GetTokPrecedence_posPre s c
      exact ⟨hExpr, hPrim, hParen, hId, hArgs, hIf, hFor, hRhs⟩

theorem protoArgsGo_ops (ops : OpMap) (acc : List String) (ts : List Token) :
    (protoArgsGo ops acc ts).2.ops = ops := by
  induction ts generalizing acc with
  | nil => rfl
  | cons t ts ih =>
      cases t
      case tok_identifier n => exact ih (acc ++ [n])
      all_goals rfl

theorem ParsePrototype_ops (s : PState) : (ParsePrototype s).2.ops = s.ops := by
  unfold ParsePrototype
  split
  · rename_i fn heq
    show ((if (advanceP s).cur ≠ Token.tok_char '(' then
        ((none : Option PrototypeAST), advanceP s)
      else if (protoArgs [] (advanceP s)).2.cur ≠ Token.tok_char ')' then
        (none, (protoArgs [] (advanceP s)).2)
      else (some ⟨fn, (protoArgs [] (advanceP s)).1⟩,
        advanceP (protoArgs [] (advanceP s)).2)) :
        Option PrototypeAST × PState).2.ops = s.ops
    split_ifs
    · exact advanceP_ops s
    · show (protoArgsGo (advanceP s).ops [] (advanceP s).rest).2.ops = s.ops
      rw [protoArgsGo_ops, advanceP_ops]
    · rw [advanceP_ops]
      show (protoArgsGo (advanceP s).ops [] (advanceP s).rest).2.ops = s.ops
      rw [protoArgsGo_ops, advanceP_ops]
  · rfl

theorem ParseDefinition_posPre (f : Nat) (s : PState) (c : Char) :
    posPre (ParseDefinition f s).2.ops c = posPre s.ops c := by
  unfold ParseDefinition
  show posPre ((match ParsePrototype (advanceP s) with
      | (none, s2) => ((none : Option FunctionAST), s2)
      | (some p, s2) =>
          match ParseExpression f s2 with
          | (none, s3) => (none, s3)
          | (some e, s3) => (some ⟨p, e⟩, s3)).2).ops c = posPre s.ops c
  split
  · rename_i s2 heq
    have hp := ParsePrototype_ops (advanceP s)
    rw [heq] at hp
    rw [hp, advanceP_ops]
  · rename_i p s2 heq
    have hp := ParsePrototype_ops (advanceP s)
    rw [heq] at hp
    split
    · rename_i s3 heq3
      have h := (parserPosPre f).1 s2 c
      rw [heq3] at h
      rw [h, hp, advanceP_ops]
    · rename_i e s3 heq3
      have h := (parserPosPre f).1 s2 c
      rw [heq3] at h
      rw [h, hp, advanceP_ops]

theorem ParseExt_ops (s : PState) : (ParseExt s).2.ops = s.ops := by
  show (ParsePrototype (advanceP s)).2.ops = s.ops
  rw [ParsePrototype_ops, advanceP_ops]

theorem ParseTopLevelExpr_posPre (f : Nat) (s : PState) (c : Char) :
    posPre (ParseTopLevelExpr f s).2.ops c = posPre s.ops c := by
  unfold ParseTopLevelExpr
  split
  · rename_i s1 heq
    have h := (parserPosPre f).1 s c
    rw [heq] at h
    exact h
  · rename_i e s1 heq
    have h := (parserPosPre f).1 s c
    rw [heq] at h
    exact h

theorem handleDefinition_posPre (pf : Nat) (s : Session) (c : Char) :
    posPre (stepSession (handleDefinition pf s)).ps.ops c = posPre s.ps.ops c := by
  unfold handleDefinition
  split
  · rename_i ps1 heq
    show posPre (advanceP ps1).ops c = posPre s.ps.ops c
    have h := ParseDefinition_posPre pf s.ps c
    rw [heq] at h
    rw [advanceP_ops]
    exact h
  · rename_i ast ps1 heq
    split
    · rename_i cg1 heq2
      show posPre ps1.ops c = posPre s.ps.ops c
      have h := ParseDefinition_posPre pf s.ps c
      rw [heq] at h
      exact h
    · rename_i r cg1 heq2
      show posPre ps1.ops c = posPre s.ps.ops c
      have h := ParseDefinition_posPre pf s.ps c
      rw [heq] at h
      exact h

theorem handleExt_posPre (s : Session) (c : Char) :
    posPre (stepSession (handleExt s)).ps.ops c = posPre s.ps.ops c := by
  unfold handleExt
  split
  · rename_i ps1 heq
    show posPre (advanceP ps1).ops c = posPre s.ps.ops c
    have h := ParseExt_ops s.ps
    rw [heq] at h
    rw [advanceP_ops, h]
  · rename_i p ps1 heq
    show posPre ps1.ops c = posPre s.ps.ops c
    have h := ParseExt_ops s.ps
    rw [heq] at h
    rw [h]

theorem handleTopLevel_posPre (pf : Nat) (s : Session) (c : Char) :
    posPre (stepSession (handleTopLevel pf s)).ps.ops c = posPre s.ps.ops c := by
  unfold handleTopLevel
  split
  · rename_i ps1 heq
    show posPre (advanceP ps1).ops c = posPre s.ps.ops c
    have h := ParseTopLevelExpr_posPre pf s.ps c
    rw [heq] at h
    rw [advanceP_ops]
    exact h
  · rename_i ast ps1 heq
    split
    · rename_i cg1 heq2
      show posPre ps1.ops c = posPre s.ps.ops c
      have h := ParseTopLevelExpr_posPre pf s.ps c
      rw [heq] at h
      exact h
    · rename_i r cg1 heq2
      show posPre ps1.ops c = posPre s.ps.ops c
      have h := ParseTopLevelExpr_posPre pf s.ps c
      rw [heq] at h
      exact h

theorem mainloop_succ (pf lf : Nat) (s : Session) :
    mainloop pf (lf + 1) s =
      (match s.ps.cur with
       | .tok_eof => .finished s
       | .tok_char ';' => mainloop pf lf { s with ps := advanceP s.ps }
       | .tok_def =>
           match handleDefinition pf s with
           | .ok s1 => mainloop pf lf s1
           | .crash s1 => .crashed s1
       | .tok_ext =>
           match handleExt s with
           | .ok s1 => mainloop pf lf s1
           | .crash s1 => .crashed s1
       | _ =>
           match handleTopLevel pf s with
           | .ok s1 => mainloop pf lf s1
           | .crash s1 => .crashed s1) := rfl

theorem mainloop_posPre (pf lf : Nat) (s : Session) (c : Char) :
    posPre (runResSession (mainloop pf lf s)).ps.ops c = posPre s.ps.ops c := by
  induction lf generalizing s with
  | zero => rfl
  | succ lf ih =>
      rw [mainloop_succ]
      split
      · rfl
      · rw [ih]
        show posPre (advanceP s.ps).ops c = posPre s.ps.ops c
        rw [advanceP_ops]
      · split
        · rename_i s1 heq
          rw [ih]
          have h := handleDefinition_posPre pf s c
          rw [heq] at h
          exact h
        · rename_i s1 heq
          have h := handleDefinition_posPre pf s c
          rw [heq] at h
          exact h
      · split
        · rename_i s1 heq
          rw [ih]
          have h := handleExt_posPre s c
          rw [heq] at h
          exact h
        · rename_i s1 heq
          have h := handleExt_posPre s c
          rw [heq] at h
          exact h
      · split
        · rename_i s1 heq
          rw [ih]
          have h := handleTopLevel_posPre pf s c
          rw [heq] at h
          exact h
        · rename_i s1 heq
          have h := handleTopLevel_posPre pf s c
          rw [heq] at h
          exact h

/-- C7 (amended): `GetTokPrecedence` does mutate `BinopPrecedence` — its
`operator[]` probe default-inserts zero-valued keys, which is what the
counterexample to the claim's "never modified after startup" exhibits — but
the *positive-precedence* content of the table, the part every parsing
decision reads, is invariant across any whole session: after any run it is
pointwise identical to the seeded table, which maps exactly
`'<'`/`'>'` to 10, `'+'`/`'-'` to 20 and `'/'`/`'*'` to 40. -/
theorem claim_C7 (pf lf : Nat) (toks : List Token) (c : Char) :
    posPre (runResSession (runSession pf lf toks)).ps.ops c = posPre seededOps c ∧
    (posPre seededOps '<' = some 10 ∧ posPre seededOps '>' = some 10 ∧
     posPre seededOps '+' = some 20 ∧ posPre seededOps '-' = some 20 ∧
     posPre seededOps '/' = some 40 ∧ posPre seededOps '*' = some 40) := by
  refine ⟨?_, by decide⟩
  exact mainloop_posPre pf lf (initSession toks) c

/-! ### Block-structure preservation along code generation (claim C10) -/

theorem appendInstrTo_mem_ne (bs : List BB) (b : Nat) (i : Instr) (bb : BB)
    (hm : bb ∈ bs) (hne : bb.id ≠ b) : bb ∈ appendInstrTo bs b i := by
  unfold appendInstrTo
  exact List.mem_map.mpr ⟨bb, hm, by rw [if_neg hne]⟩

theorem appendInstrTo_mem_self (bs : List BB) (b : Nat) (i : Instr) (bb : BB)
    (hm : bb ∈ bs) (heq : bb.id = b) :
    ({ bb with instrs := bb.instrs ++ [i] } : BB) ∈ appendInstrTo bs b i := by
  unfold appendInstrTo
  exact List.mem_map.mpr ⟨bb, hm, by rw [if_pos heq]⟩

theorem setTermOf_mem_ne (bs : List BB) (b : Nat) (t : Terminator) (bb : BB)
    (hm : bb ∈ bs) (hne : bb.id ≠ b) : bb ∈ setTermOf bs b t := by
  unfold setTermOf
  exact List.mem_map.mpr ⟨bb, hm, by rw [if_neg hne]⟩

theorem setTermOf_mem_self (bs : List BB) (b : Nat) (t : Terminator) (bb : BB)
    (hm : bb ∈ bs) (heq : bb.id = b) :
    ({ bb with term := t } : BB) ∈ setTermOf bs b t := by
  unfold setTermOf
  exact List.mem_map.mpr ⟨bb, hm, by rw [if_pos heq]⟩

theorem addIncomingTo_mem_of_fresh (bs : List BB) (rr : Nat) (inc : Operand × Nat)
    (bb : BB) (hm : bb ∈ bs) (hfresh : ∀ i ∈ bb.instrs, i.res ≠ rr) :
    bb ∈ addIncomingTo bs rr inc := by
  unfold addIncomingTo
  refine List.mem_map.mpr ⟨bb, hm, ?_⟩
  obtain ⟨bid, bins, btm⟩ := bb
  have hmap : ∀ l : List Instr, (∀ i ∈ l, i.res ≠ rr) →
      (l.map fun i =>
        match i.kind with
        | .phi pl => if i.res = rr then { i with kind := .phi (pl ++ [inc]) } else i
        | _ => i) = l := by
    intro l
    induction l with
    | nil => intro _; rfl
    | cons a t ih =>
        intro h
        have ha : a.res ≠ rr := h a (List.mem_cons_self _ _)
        have ht := ih fun i hi => h i (List.mem_cons_of_mem _ hi)
        simp only [List.map_cons, ht]
        obtain ⟨ar, ak⟩ := a
        cases ak with
        | phi pl =>
            simp only
            rw [if_neg ha]
        | fadd x y => rfl
        | fsub x y => rfl
        | fmul x y => rfl
        | fcmpULT x y => rfl
        | fcmpONE x y => rfl
        | uitofp x => rfl
        | callFn n vs => rfl
  exact congrArg (fun l => ({ id := bid, instrs := l, term := btm } : BB))
    (hmap bins hfresh)

theorem addIncomingTo_mem_ex (bs : List BB) (rr : Nat) (inc : Operand × Nat)
    (bb : BB) (hm : bb ∈ bs) :
    ∃ is2, (⟨bb.id, is2, bb.term⟩ : BB) ∈ addIncomingTo bs rr inc := by
  unfold addIncomingTo
  refine ⟨bb.instrs.map fun i =>
    match i.kind with
    | .phi pl => if i.res = rr then { i with kind := .phi (pl ++ [inc]) } else i
    | _ => i, List.mem_map.mpr ⟨bb, hm, ?_⟩⟩
  obtain ⟨bid, bins, btm⟩ := bb
  rfl

theorem wfRegs_mono (bs : List BB) (n m : Nat) (h : wfRegs bs n) (hnm : n ≤ m) :
    wfRegs bs m := fun bb hbb i hi => lt_of_lt_of_le (h bb hbb i hi) hnm

theorem wfIds_mono (bs : List BB) (n m : Nat) (h : wfIds bs n) (hnm : n ≤ m) :
    wfIds bs m := fun bb hbb => lt_of_lt_of_le (h bb hbb) hnm

theorem wfRegs_appendInstrTo (bs : List BB) (b : Nat) (i : Instr) (n m : Nat)
    (h : wfRegs bs n) (hi : i.res < m) (hnm : n ≤ m) :
    wfRegs (appendInstrTo bs b i) m := by
  intro bb' hbb' j hj
  obtain ⟨a, ha, rfl⟩ := List.mem_map.mp hbb'
  by_cases hab : a.id = b
  · rw [if_pos hab] at hj
    rcases List.mem_append.mp hj with hj | hj
    · exact lt_of_lt_of_le (h a ha j hj) hnm
    · rw [List.mem_singleton.mp hj]
      exact hi
  · rw [if_neg hab] at hj
    exact lt_of_lt_of_le (h a ha j hj) hnm

theorem wfIds_appendInstrTo (bs : List BB) (b : Nat) (i : Instr) (n : Nat)
    (h : wfIds bs n) : wfIds (appendInstrTo bs b i) n := by
  intro bb' hbb'
  obtain ⟨a, ha, rfl⟩ := List.mem_map.mp hbb'
  have hid : (if a.id = b then { a with instrs := a.instrs ++ [i] } else a).id = a.id := by
    by_cases hab : a.id = b
    · rw [if_pos hab]
    · rw [if_neg hab]
  rw [hid]
  exact h a ha

theorem hasBlock_appendInstrTo (bs : List BB) (b : Nat) (i : Instr) (c : Nat)
    (h : hasBlock bs c) : hasBlock (appendInstrTo bs b i) c := by
  obtain ⟨bb, hm, hid⟩ := h
  refine ⟨if bb.id = b then { bb with instrs := bb.instrs ++ [i] } else bb,
    List.mem_map.mpr ⟨bb, hm, rfl⟩, ?_⟩
  by_cases hab : bb.id = b
  · rw [if_pos hab]
    exact hid
  · rw [if_neg hab]
    exact hid

theorem wfRegs_setTermOf (bs : List BB) (b : Nat) (t : Terminator) (n : Nat)
    (h : wfRegs bs n) : wfRegs (setTermOf bs b t) n := by
  intro bb' hbb' j hj
  obtain ⟨a, ha, rfl⟩ := List.mem_map.mp hbb'
  by_cases hab : a.id = b
  · rw [if_pos hab] at hj
    exact h a ha j hj
  · rw [if_neg hab] at hj
    exact h a ha j hj

theorem wfIds_setTermOf (bs : List BB) (b : Nat) (t : Terminator) (n : Nat)
    (h : wfIds bs n) : wfIds (setTermOf bs b t) n := by
  intro bb' hbb'
  obtain ⟨a, ha, rfl⟩ := List.mem_map.mp hbb'
  have hid : (if a.id = b then { a with term := t } else a).id = a.id := by
    by_cases hab : a.id = b
    · rw [if_pos hab]
    · rw [if_neg hab]
  rw [hid]
  exact h a ha

theorem hasBlock_setTermOf (bs : List BB) (b : Nat) (t : Terminator) (c : Nat)
    (h : hasBlock bs c) : hasBlock (setTermOf bs b t) c := by
  obtain ⟨bb, hm, hid⟩ := h
  refine ⟨if bb.id = b then { bb with term := t } else bb,
    List.mem_map.mpr ⟨bb, hm, rfl⟩, ?_⟩
  by_cases hab : bb.id = b
  · rw [if_pos hab]
    exact hid
  · rw [if_neg hab]
    exact hid

theorem wfRegs_addIncomingTo (bs : List BB) (rr : Nat) (inc : Operand × Nat)
    (n : Nat) (h : wfRegs bs n) : wfRegs (addIncomingTo bs rr inc) n := by
  intro bb' hbb' j hj
  obtain ⟨a, ha, rfl⟩ := List.mem_map.mp hbb'
  obtain ⟨j0, hj0, rfl⟩ := List.mem_map.mp hj
  have hres : (match j0.kind with
      | .phi pl => if j0.res = rr then { j0 with kind := .phi (pl ++ [inc]) } else j0
      | _ => j0).res = j0.res := by
    obtain ⟨jr, jk⟩ := j0
    cases jk with
    | phi pl =>
        simp only
        by_cases hj0r : jr = rr
        · rw [if_pos hj0r]
        · rw [if_neg hj0r]
    | fadd x y => rfl
    | fsub x y => rfl
    | fmul x y => rfl
    | fcmpULT x y => rfl
    | fcmpONE x y => rfl
    | uitofp x => rfl
    | callFn nm vs => rfl
  rw [hres]
  exact h a ha j0 hj0

theorem wfIds_addIncomingTo (bs : List BB) (rr : Nat) (inc : Operand × Nat)
    (n : Nat) (h : wfIds bs n) : wfIds (addIncomingTo bs rr inc) n := by
  intro bb' hbb'
  obtain ⟨a, ha, rfl⟩ := List.mem_map.mp hbb'
  exact h a ha

theorem hasBlock_addIncomingTo (bs : List BB) (rr : Nat) (inc : Operand × Nat)
    (c : Nat) (h : hasBlock bs c) : hasBlock (addIncomingTo bs rr inc) c := by
  obtain ⟨bb, hm, hid⟩ := h
  obtain ⟨is2, hmem⟩ := addIncomingTo_mem_ex bs rr inc bb hm
  exact ⟨⟨bb.id, is2, bb.term⟩, hmem, hid⟩

theorem wfRegs_append_new (bs : List BB) (b : Nat) (t : Terminator) (n : Nat)
    (h : wfRegs bs n) : wfRegs (bs ++ [⟨b, [], t⟩]) n := by
  intro bb hbb i hi
  rcases List.mem_append.mp hbb with hbb | hbb
  · exact h bb hbb i hi
  · rw [List.mem_singleton.mp hbb] at hi
    simp at hi

theorem wfIds_append_new (bs : List BB) (b : Nat) (t : Terminator) (n : Nat)
    (h : wfIds bs n) (hb : b < n) : wfIds (bs ++ [⟨b, [], t⟩]) n := by
  intro bb hbb
  rcases List.mem_append.mp hbb with hbb | hbb
  · exact h bb hbb
  · rw [List.mem_singleton.mp hbb]
    exact hb

theorem hasBlock_append_left (bs l : List BB) (c : Nat) (h : hasBlock bs c) :
    hasBlock (bs ++ l) c := by
  obtain ⟨bb, hm, hid⟩ := h
  exact ⟨bb, List.mem_append_left l hm, hid⟩

theorem hasBlock_append_self (bs : List BB) (b : Nat) (t : Terminator) :
    hasBlock (bs ++ [⟨b, [], t⟩]) b :=
  ⟨⟨b, [], t⟩, List.mem_append_right bs (List.mem_singleton_self _), rfl⟩

theorem blkOk_refl (s : CGState) : blkOk s s :=
  ⟨le_refl _, le_refl _, Or.inl rfl, fun h => h, fun _ _ hm _ => hm⟩

theorem blkOk_trans {s t u : CGState} (h1 : blkOk s t) (h2 : blkOk t u) :
    blkOk s u := by
  obtain ⟨hb1, hr1, hc1, hw1, hs1⟩ := h1
  obtain ⟨hb2, hr2, hc2, hw2, hs2⟩ := h2
  refine ⟨le_trans hb1 hb2, le_trans hr1 hr2, ?_, fun hw => hw2 (hw1 hw), ?_⟩
  · rcases hc2 with h | h
    · rw [h]
      exact hc1
    · exact Or.inr (le_trans hb1 h)
  · intro hw bb hmem hne
    have hbt : bb ∈ t.fnBlocks := hs1 hw bb hmem hne
    apply hs2 (hw1 hw) bb hbt
    rcases hc1 with h | h
    · rw [h]
      exact hne
    · have hid : bb.id < s.nextBB := hw.2.1 bb hmem
      omega

theorem blkOk_of_eq {s t : CGState} (hf : t.fnBlocks = s.fnBlocks)
    (hc : t.curBB = s.curBB) (hr : t.nextReg = s.nextReg)
    (hb : t.nextBB = s.nextBB) : blkOk s t := by
  refine ⟨le_of_eq hb.symm, le_of_eq hr.symm, Or.inl hc, ?_, ?_⟩
  · intro hw
    unfold cgWF at hw ⊢
    rw [hf, hc, hr, hb]
    exact hw
  · intro _ bb hm _
    rw [hf]
    exact hm

theorem blkOk_emit (s : CGState) (k : InstrKind) : blkOk s (emit s k).2 := by
  refine ⟨le_refl _, Nat.le_succ _, Or.inl rfl, ?_, ?_⟩
  · intro hw
    obtain ⟨hR, hI, hC, hH⟩ := hw
    exact ⟨wfRegs_appendInstrTo _ _ _ _ _ hR (Nat.lt_succ_self _) (Nat.le_succ _),
      wfIds_appendInstrTo _ _ _ _ hI, hC, hasBlock_appendInstrTo _ _ _ _ hH⟩
  · intro _ bb hm hne
    exact appendInstrTo_mem_ne _ _ _ bb hm hne

theorem blkOk_emitTerm (s : CGState) (t : Terminator) : blkOk s (emitTerm s t) := by
  refine ⟨le_refl _, le_refl _, Or.inl rfl, ?_, ?_⟩
  · intro hw
    obtain ⟨hR, hI, hC, hH⟩ := hw
    exact ⟨wfRegs_setTermOf _ _ _ _ hR, wfIds_setTermOf _ _ _ _ hI, hC,
      hasBlock_setTermOf _ _ _ _ hH⟩
  · intro _ bb hm hne
    exact setTermOf_mem_ne _ _ _ bb hm hne

theorem blkOk_newBlock (s : CGState) (a : Bool) : blkOk s (newBlock s a).2 := by
  cases a with
  | false =>
      refine ⟨Nat.le_succ _, le_refl _, Or.inl rfl, ?_, fun _ bb hm _ => hm⟩
      intro hw
      obtain ⟨hR, hI, hC, hH⟩ := hw
      exact ⟨hR, wfIds_mono _ _ _ hI (Nat.le_succ _), Nat.lt_succ_of_lt hC, hH⟩
  | true =>
      refine ⟨Nat.le_succ _, le_refl _, Or.inl rfl, ?_, ?_⟩
      · intro hw
        obtain ⟨hR, hI, hC, hH⟩ := hw
        exact ⟨wfRegs_append_new _ _ _ _ hR,
          wfIds_append_new _ _ _ _ (wfIds_mono _ _ _ hI (Nat.le_succ _))
            (Nat.lt_succ_self _),
          Nat.lt_succ_of_lt hC, hasBlock_append_left _ _ _ hH⟩
      · intro _ bb hm _
        exact List.mem_append_left _ hm

theorem blkOk_getFunction (c : String) (s : CGState) :
    blkOk s (getFunction c s).2 := by
  unfold getFunction
  cases mfLookup s.modFuncs c with
  | some f => exact blkOk_refl s
  | none =>
      cases pLookup s.protos c with
      | some p => exact blkOk_of_eq rfl rfl rfl rfl
      | none => exact blkOk_refl s

theorem blkOk_logErrorV (s : CGState) (m : String) :
    blkOk s (logErrorV s m).2 :=
  blkOk_of_eq rfl rfl rfl rfl

theorem blkOk_binDispatch (op : Char) (a b : Operand) (s : CGState) :
    blkOk s (binDispatch op a b s).2 := by
  unfold binDispatch
  split_ifs
  · exact blkOk_emit s _
  · exact blkOk_emit s _
  · exact blkOk_emit s _
  · exact blkOk_trans (blkOk_emit s _) (blkOk_emit _ _)
  · exact blkOk_of_eq rfl rfl rfl rfl

theorem ifSetup_blocks (s1 : CGState) (cv : Operand) :
    (ifSetup s1 cv).1.fnBlocks =
      setTermOf (appendInstrTo s1.fnBlocks s1.curBB
          ⟨s1.nextReg, .fcmpONE cv (.constFP 0)⟩ ++
          [⟨s1.nextBB, [], .unterminated⟩])
        s1.curBB (.condbr (.reg s1.nextReg) s1.nextBB (s1.nextBB + 1)) := rfl

theorem ifSetup_curBB (s1 : CGState) (cv : Operand) :
    (ifSetup s1 cv).1.curBB = s1.nextBB := rfl

theorem ifSetup_nextBB (s1 : CGState) (cv : Operand) :
    (ifSetup s1 cv).1.nextBB = s1.nextBB + 1 + 1 + 1 := rfl

theorem ifSetup_nextReg (s1 : CGState) (cv : Operand) :
    (ifSetup s1 cv).1.nextReg = s1.nextReg + 1 := rfl

theorem ifSetup_elseBB (s1 : CGState) (cv : Operand) :
    (ifSetup s1 cv).2.2.1 = s1.nextBB + 1 := rfl

theorem ifSetup_mergeBB (s1 : CGState) (cv : Operand) :
    (ifSetup s1 cv).2.2.2 = s1.nextBB + 1 + 1 := rfl

theorem forSetup_blocks (s1 : CGState) (vn : String) (startV : Operand) :
    (forSetup s1 vn startV).1.fnBlocks =
      appendInstrTo (setTermOf (s1.fnBlocks ++ [⟨s1.nextBB, [], .unterminated⟩])
          s1.curBB (.br s1.nextBB))
        s1.nextBB ⟨s1.nextReg, .phi [(startV, s1.curBB)]⟩ := rfl

theorem forSetup_curBB (s1 : CGState) (vn : String) (startV : Operand) :
    (forSetup s1 vn startV).1.curBB = s1.nextBB := rfl

theorem forSetup_nextBB (s1 : CGState) (vn : String) (startV : Operand) :
    (forSetup s1 vn startV).1.nextBB = s1.nextBB + 1 := rfl

theorem forSetup_nextReg (s1 : CGState) (vn : String) (startV : Operand) :
    (forSetup s1 vn startV).1.nextReg = s1.nextReg + 1 := rfl

theorem forSetup_loopBB (s1 : CGState) (vn : String) (startV : Operand) :
    (forSetup s1 vn startV).2.1 = s1.nextBB := rfl

theorem forSetup_phiReg (s1 : CGState) (vn : String) (startV : Operand) :
    (forSetup s1 vn startV).2.2.1 = s1.nextReg := rfl

theorem forFinish_blocks (s7 : CGState) (vn : String)
    (loopBB phiReg nextReg : Nat) (endV : Operand) (oldV : Option Operand) :
    (forFinish s7 vn loopBB phiReg nextReg endV oldV).2.fnBlocks =
      addIncomingTo
        (setTermOf (appendInstrTo s7.fnBlocks s7.curBB
            ⟨s7.nextReg, .fcmpONE endV (.constFP 0)⟩ ++
            [⟨s7.nextBB, [], .unterminated⟩])
          s7.curBB (.condbr (.reg s7.nextReg) loopBB s7.nextBB))
        phiReg (.reg nextReg, s7.curBB) := rfl

theorem forFinish_curBB (s7 : CGState) (vn : String)
    (loopBB phiReg nextReg : Nat) (endV : Operand) (oldV : Option Operand) :
    (forFinish s7 vn loopBB phiReg nextReg endV oldV).2.curBB = s7.nextBB := rfl

theorem forFinish_nextBB (s7 : CGState) (vn : String)
    (loopBB phiReg nextReg : Nat) (endV : Operand) (oldV : Option Operand) :
    (forFinish s7 vn loopBB phiReg nextReg endV oldV).2.nextBB = s7.nextBB + 1 := rfl

theorem forFinish_nextReg (s7 : CGState) (vn : String)
    (loopBB phiReg nextReg : Nat) (endV : Operand) (oldV : Option Operand) :
    (forFinish s7 vn loopBB phiReg nextReg endV oldV).2.nextReg = s7.nextReg + 1 := rfl

theorem ifElseEntry_blocks (s7 : CGState) (eB mB : Nat) :
    (ifElseEntry s7 eB mB).1.fnBlocks =
      setTermOf s7.fnBlocks s7.curBB (.br mB) ++ [⟨eB, [], .unterminated⟩] := rfl

theorem ifElseEntry_curBB (s7 : CGState) (eB mB : Nat) :
    (ifElseEntry s7 eB mB).1.curBB = eB := rfl

theorem ifElseEntry_nextBB (s7 : CGState) (eB mB : Nat) :
    (ifElseEntry s7 eB mB).1.nextBB = s7.nextBB := rfl

theorem ifElseEntry_nextReg (s7 : CGState) (eB mB : Nat) :
    (ifElseEntry s7 eB mB).1.nextReg = s7.nextReg := rfl

theorem ifMerge_blocks (s10 : CGState) (mB thenEnd : Nat) (tv ev : Operand) :
    (ifMerge s10 mB thenEnd tv ev).2.fnBlocks =
      appendInstrTo (setTermOf s10.fnBlocks s10.curBB (.br mB) ++
          [⟨mB, [], .unterminated⟩])
        mB ⟨s10.nextReg, .phi [(tv, thenEnd), (ev, s10.curBB)]⟩ := rfl

theorem ifMerge_curBB (s10 : CGState) (mB thenEnd : Nat) (tv ev : Operand) :
    (ifMerge s10 mB thenEnd tv ev).2.curBB = mB := rfl

theorem ifMerge_nextBB (s10 : CGState) (mB thenEnd : Nat) (tv ev : Operand) :
    (ifMerge s10 mB thenEnd tv ev).2.nextBB = s10.nextBB := rfl

theorem ifMerge_nextReg (s10 : CGState) (mB thenEnd : Nat) (tv ev : Operand) :
    (ifMerge s10 mB thenEnd tv ev).2.nextReg = s10.nextReg + 1 := rfl

theorem blkOk_forSetup (s1 : CGState) (vn : String) (startV : Operand) :
    blkOk s1 (forSetup s1 vn startV).1 := by
  refine ⟨?_, ?_, ?_, ?_, ?_⟩
  · rw [forSetup_nextBB]
    omega
  · rw [forSetup_nextReg]
    omega
  · rw [forSetup_curBB]
    exact Or.inr (le_refl _)
  · intro hw
    obtain ⟨hR, hI, hC, hH⟩ := hw
    refine ⟨?_, ?_, ?_, ?_⟩
    · rw [forSetup_blocks, forSetup_nextReg]
      exact wfRegs_appendInstrTo _ _ _ _ _
        (wfRegs_setTermOf _ _ _ _ (wfRegs_append_new _ _ _ _ hR))
        (Nat.lt_succ_self _) (Nat.le_succ _)
    · rw [forSetup_blocks, forSetup_nextBB]
      exact wfIds_appendInstrTo _ _ _ _
        (wfIds_setTermOf _ _ _ _
          (wfIds_append_new _ _ _ _ (wfIds_mono _ _ _ hI (Nat.le_succ _))
            (Nat.lt_succ_self _)))
    · rw [forSetup_curBB, forSetup_nextBB]
      omega
    · rw [forSetup_blocks, forSetup_curBB]
      exact hasBlock_appendInstrTo _ _ _ _
        (hasBlock_setTermOf _ _ _ _ (hasBlock_append_self _ _ _))
  · intro hw bb hm hne
    rw [forSetup_blocks]
    refine appendInstrTo_mem_ne _ _ _ bb
      (setTermOf_mem_ne _ _ _ bb (List.mem_append_left _ hm) hne) ?_
    have := hw.2.1 bb hm
    omega

theorem blkOk_ifSetup (s1 : CGState) (cv : Operand) :
    blkOk s1 (ifSetup s1 cv).1 := by
  refine ⟨?_, ?_, ?_, ?_, ?_⟩
  · rw [ifSetup_nextBB]
    omega
  · rw [ifSetup_nextReg]
    omega
  · rw [ifSetup_curBB]
    exact Or.inr (le_refl _)
  · intro hw
    obtain ⟨hR, hI, hC, hH⟩ := hw
    refine ⟨?_, ?_, ?_, ?_⟩
    · rw [ifSetup_blocks, ifSetup_nextReg]
      exact wfRegs_setTermOf _ _ _ _
        (wfRegs_append_new _ _ _ _
          (wfRegs_appendInstrTo _ _ _ _ _ hR (Nat.lt_succ_self _) (Nat.le_succ _)))
    · rw [ifSetup_blocks, ifSetup_nextBB]
      exact wfIds_setTermOf _ _ _ _
        (wfIds_append_new _ _ _ _
          (wfIds_mono _ _ _ (wfIds_appendInstrTo _ _ _ _ hI) (by omega)) (by omega))
    · rw [ifSetup_curBB, ifSetup_nextBB]
      omega
    · rw [ifSetup_blocks, ifSetup_curBB]
      exact hasBlock_setTermOf _ _ _ _ (hasBlock_append_self _ _ _)
  · intro hw bb hm hne
    rw [ifSetup_blocks]
    exact setTermOf_mem_ne _ _ _ bb
      (List.mem_append_left _ (appendInstrTo_mem_ne _ _ _ bb hm hne)) hne

theorem blkOk_ifElseEntry_comp (s1 s7 : CGState) (h : blkOk s1 s7)
    (hnb : s1.nextBB + 1 + 1 + 1 ≤ s7.nextBB) :
    blkOk s1 (ifElseEntry s7 (s1.nextBB + 1) (s1.nextBB + 1 + 1)).1 := by
  obtain ⟨hb, hr, hc, hw, hs⟩ := h
  refine ⟨?_, ?_, ?_, ?_, ?_⟩
  · rw [ifElseEntry_nextBB]
    omega
  · rw [ifElseEntry_nextReg]
    exact hr
  · rw [ifElseEntry_curBB]
    exact Or.inr (by omega)
  · intro hw1
    obtain ⟨hR, hI, hC, hH⟩ := hw hw1
    refine ⟨?_, ?_, ?_, ?_⟩
    · rw [ifElseEntry_blocks, ifElseEntry_nextReg]
      exact wfRegs_append_new _ _ _ _ (wfRegs_setTermOf _ _ _ _ hR)
    · rw [ifElseEntry_blocks, ifElseEntry_nextBB]
      exact wfIds_append_new _ _ _ _ (wfIds_setTermOf _ _ _ _ hI) (by omega)
    · rw [ifElseEntry_curBB, ifElseEntry_nextBB]
      omega
    · rw [ifElseEntry_blocks, ifElseEntry_curBB]
      exact hasBlock_append_self _ _ _
  · intro hw1 bb hm hne
    rw [ifElseEntry_blocks]
    refine List.mem_append_left _ (setTermOf_mem_ne _ _ _ bb (hs hw1 bb hm hne) ?_)
    rcases hc with h | h
    · rw [h]
      exact hne
    · have := hw1.2.1 bb hm
      omega

theorem blkOk_ifMerge_comp (s1 s10 : CGState) (thenEnd : Nat) (tv ev : Operand)
    (h : blkOk s1 s10) (hnb : s1.nextBB + 1 + 1 + 1 ≤ s10.nextBB) :
    blkOk s1 (ifMerge s10 (s1.nextBB + 1 + 1) thenEnd tv ev).2 := by
  obtain ⟨hb, hr, hc, hw, hs⟩ := h
  refine ⟨?_, ?_, ?_, ?_, ?_⟩
  · rw [ifMerge_nextBB]
    omega
  · rw [ifMerge_nextReg]
    omega
  · rw [ifMerge_curBB]
    exact Or.inr (by omega)
  · intro hw1
    obtain ⟨hR, hI, hC, hH⟩ := hw hw1
    refine ⟨?_, ?_, ?_, ?_⟩
    · rw [ifMerge_blocks, ifMerge_nextReg]
      exact wfRegs_appendInstrTo _ _ _ _ _
        (wfRegs_append_new _ _ _ _ (wfRegs_setTermOf _ _ _ _ hR))
        (Nat.lt_succ_self _) (Nat.le_succ _)
    · rw [ifMerge_blocks, ifMerge_nextBB]
      exact wfIds_appendInstrTo _ _ _ _
        (wfIds_append_new _ _ _ _ (wfIds_setTermOf _ _ _ _ hI) (by omega))
    · rw [ifMerge_curBB, ifMerge_nextBB]
      omega
    · rw [ifMerge_blocks, ifMerge_curBB]
      exact hasBlock_appendInstrTo _ _ _ _ (hasBlock_append_self _ _ _)
  · intro hw1 bb hm hne
    rw [ifMerge_blocks]
    have hne10 : bb.id ≠ s10.curBB := by
      rcases hc with h | h
      · rw [h]
        exact hne
      · have := hw1.2.1 bb hm
        omega
    refine appendInstrTo_mem_ne _ _ _ bb
      (List.mem_append_left _ (setTermOf_mem_ne _ _ _ bb (hs hw1 bb hm hne) hne10)) ?_
    have := hw1.2.1 bb hm
    omega

theorem blkOk_forFinish_comp (s1 s7 : CGState) (vn : String)
    (loopBB nxt : Nat) (endV : Operand) (oldV : Option Operand) (phiReg : Nat)
    (h : blkOk s1 s7) (hphi : s1.nextReg ≤ phiReg) :
    blkOk s1 (forFinish s7 vn loopBB phiReg nxt endV oldV).2 := by
  obtain ⟨hb, hr, hc, hw, hs⟩ := h
  refine ⟨?_, ?_, ?_, ?_, ?_⟩
  · rw [forFinish_nextBB]
    omega
  · rw [forFinish_nextReg]
    omega
  · rw [forFinish_curBB]
    exact Or.inr (by omega)
  · intro hw1
    obtain ⟨hR, hI, hC, hH⟩ := hw hw1
    refine ⟨?_, ?_, ?_, ?_⟩
    · rw [forFinish_blocks, forFinish_nextReg]
      exact wfRegs_addIncomingTo _ _ _ _
        (wfRegs_setTermOf _ _ _ _
          (wfRegs_append_new _ _ _ _
            (wfRegs_appendInstrTo _ _ _ _ _ hR (Nat.lt_succ_self _) (Nat.le_succ _))))
    · rw [forFinish_blocks, forFinish_nextBB]
      exact wfIds_addIncomingTo _ _ _ _
        (wfIds_setTermOf _ _ _ _
          (wfIds_append_new _ _ _ _
            (wfIds_mono _ _ _ (wfIds_appendInstrTo _ _ _ _ hI) (Nat.le_succ _))
            (Nat.lt_succ_self _)))
    · rw [forFinish_curBB, forFinish_nextBB]
      omega
    · rw [forFinish_blocks, forFinish_curBB]
      exact hasBlock_addIncomingTo _ _ _ _
        (hasBlock_setTermOf _ _ _ _ (hasBlock_append_self _ _ _))
  · intro hw1 bb hm hne
    rw [forFinish_blocks]
    have hne7 : bb.id ≠ s7.curBB := by
      rcases hc with h | h
      · rw [h]
        exact hne
      · have := hw1.2.1 bb hm
        omega
    refine addIncomingTo_mem_of_fresh _ _ _ bb
      (setTermOf_mem_ne _ _ _ bb
        (List.mem_append_left _ (appendInstrTo_mem_ne _ _ _ bb (hs hw1 bb hm hne) hne7))
        hne7) ?_
    intro i hi
    have := hw1.1 bb hm i hi
    omega

mutual

/-- Expression code generation preserves block structure: counters grow
monotonically, the insert block is the old one or a newly allocated one,
structural wellformedness is preserved, and every block other than the
incoming insert block survives unchanged. -/
theorem cgBlkE (e : ExprAST) (s : CGState) : blkOk s (codegenE e s).2 := by
  cases e with
  | NumberExprAST v =>
      rw [codegenE_num]
      exact blkOk_refl s
  | VariableExprAST nm =>
      rw [codegenE_var]
      cases h : (nvIndex s.namedValues nm).1 with
      | none => exact blkOk_of_eq rfl rfl rfl rfl
      | some x => exact blkOk_of_eq rfl rfl rfl rfl
  | BinaryExprAST op l r =>
      rw [codegenE_bin]
      have hl := cgBlkE l s
      have hr := cgBlkE r (codegenE l s).2
      rcases h1 : (codegenE l s).1 with _ | a <;>
        rcases h2 : (codegenE r (codegenE l s).2).1 with _ | b <;>
        simp only [h1, h2]
      · exact blkOk_trans hl hr
      · exact blkOk_trans hl hr
      · exact blkOk_trans hl hr
      · exact blkOk_trans (blkOk_trans hl hr) (blkOk_binDispatch op a b _)
  | CallExprAst callee args =>
      rw [codegenE_call]
      cases hf : (getFunction callee s).1 with
      | none => exact blkOk_trans (blkOk_getFunction callee s) (blkOk_logErrorV _ _)
      | some f =>
          show blkOk s
            ((if f.args.length ≠ args.length then
                logErrorV (getFunction callee s).2 "Incorrect #arguments passed"
              else
                match codegenArgs args (getFunction callee s).2 with
                | (none, s2) => (none, s2)
                | (some vs, s2) =>
                    (some (Operand.reg (emit s2 (.callFn f.name vs)).1),
                      (emit s2 (.callFn f.name vs)).2)) :
              Option Operand × CGState).2
          by_cases hlen : f.args.length ≠ args.length
          · rw [if_pos hlen]
            exact blkOk_trans (blkOk_getFunction callee s) (blkOk_logErrorV _ _)
          · rw [if_neg hlen]
            have hargs := cgBlkArgs args (getFunction callee s).2
            rcases h2 : codegenArgs args (getFunction callee s).2 with ⟨ra, s2⟩
            rw [h2] at hargs
            try simp only [h2]
            cases ra with
            | none => exact blkOk_trans (blkOk_getFunction callee s) hargs
            | some vs =>
                exact blkOk_trans
                  (blkOk_trans (blkOk_getFunction callee s) hargs)
                  (blkOk_emit s2 _)
  | IfExprAST c th el =>
      rw [codegenE_if]
      have hA := cgBlkE c s
      rcases h1 : codegenE c s with ⟨rc, s1⟩
      rw [h1] at hA
      try simp only [h1]
      cases rc with
      | none => exact hA
      | some cv =>
          have hB := blkOk_ifSetup s1 cv
          have hC := cgBlkE th (ifSetup s1 cv).1
          rcases h2 : codegenE th (ifSetup s1 cv).1 with ⟨rt, s7⟩
          rw [h2] at hC
          try simp only [h2]
          cases rt with
          | none => exact blkOk_trans hA (blkOk_trans hB hC)
          | some tv =>
              have h17 : blkOk s1 s7 := blkOk_trans hB hC
              have hnb : s1.nextBB + 1 + 1 + 1 ≤ s7.nextBB := by
                have hx := hC.1
                rw [ifSetup_nextBB] at hx
                exact hx
              have hD : blkOk s1
                  (ifElseEntry s7 (ifSetup s1 cv).2.2.1 (ifSetup s1 cv).2.2.2).1 := by
                rw [ifSetup_elseBB, ifSetup_mergeBB]
                exact blkOk_ifElseEntry_comp s1 s7 h17 hnb
              have hE := cgBlkE el
                (ifElseEntry s7 (ifSetup s1 cv).2.2.1 (ifSetup s1 cv).2.2.2).1
              rcases h3 : codegenE el
                  (ifElseEntry s7 (ifSetup s1 cv).2.2.1 (ifSetup s1 cv).2.2.2).1 with
                ⟨re, s10⟩
              rw [h3] at hE
              try simp only [h3]
              cases re with
              | none => exact blkOk_trans hA (blkOk_trans hD hE)
              | some ev =>
                  have h110 : blkOk s1 s10 := blkOk_trans hD hE
                  have hnb10 : s1.nextBB + 1 + 1 + 1 ≤ s10.nextBB := by
                    have hx : (ifElseEntry s7 (ifSetup s1 cv).2.2.1
                        (ifSetup s1 cv).2.2.2).1.nextBB ≤ s10.nextBB := hE.1
                    rw [ifElseEntry_nextBB] at hx
                    omega
                  have hF : blkOk s1
                      (ifMerge s10 (ifSetup s1 cv).2.2.2
                        (ifElseEntry s7 (ifSetup s1 cv).2.2.1
                          (ifSetup s1 cv).2.2.2).2 tv ev).2 := by
                    rw [ifSetup_mergeBB]
                    exact blkOk_ifMerge_comp s1 s10 _ tv ev h110 hnb10
                  exact blkOk_trans hA hF
  | ForExprAST vn st en stp bd =>
      rw [codegenE_for]
      have hA := cgBlkE st s
      rcases h1 : codegenE st s with ⟨rs, s1⟩
      rw [h1] at hA
      try simp only [h1]
      cases rs with
      | none => exact hA
      | some startV =>
          have hB := blkOk_forSetup s1 vn startV
          have hC := cgBlkE bd (forSetup s1 vn startV).1
          rcases h2 : codegenE bd (forSetup s1 vn startV).1 with ⟨rb, s5⟩
          rw [h2] at hC
          try simp only [h2]
          cases rb with
          | none => exact blkOk_trans hA (blkOk_trans hB hC)
          | some bv =>
              have hD := cgBlkStep stp s5
              rcases h3 : codegenStep stp s5 with ⟨rp, s6⟩
              rw [h3] at hD
              try simp only [h3]
              cases rp with
              | none => exact blkOk_trans hA (blkOk_trans hB (blkOk_trans hC hD))
              | some stepV =>
                  have hE := blkOk_emit s6
                    (.fadd (.reg (forSetup s1 vn startV).2.2.1) stepV)
                  have hF := cgBlkE en
                    (emit s6 (.fadd (.reg (forSetup s1 vn startV).2.2.1) stepV)).2
                  rcases h4 : codegenE en
                      (emit s6 (.fadd (.reg (forSetup s1 vn startV).2.2.1) stepV)).2 with
                    ⟨rn, s7⟩
                  rw [h4] at hF
                  try simp only [h4]
                  cases rn with
                  | none =>
                      exact blkOk_trans hA (blkOk_trans hB
                        (blkOk_trans hC (blkOk_trans hD (blkOk_trans hE hF))))
                  | some endV =>
                      have h17 : blkOk s1 s7 :=
                        blkOk_trans hB (blkOk_trans hC
                          (blkOk_trans hD (blkOk_trans hE hF)))
                      have hG : blkOk s1
                          (forFinish s7 vn (forSetup s1 vn startV).2.1
                            (forSetup s1 vn startV).2.2.1
                            (emit s6 (.fadd (.reg (forSetup s1 vn startV).2.2.1)
                              stepV)).1
                            endV (forSetup s1 vn startV).2.2.2).2 := by
                        apply blkOk_forFinish_comp s1 s7 vn _ _ endV _ _ h17
                        rw [forSetup_phiReg]
                      exact blkOk_trans hA hG

theorem cgBlkStep (o : OptExprAST) (s : CGState) : blkOk s (codegenStep o s).2 := by
  cases o with
  | noneE => exact blkOk_refl s
  | someE e => exact cgBlkE e s

theorem cgBlkArgs (l : ExprList) (s : CGState) : blkOk s (codegenArgs l s).2 := by
  cases l with
  | nil =>
      rw [codegenArgs_nil]
      exact blkOk_refl s
  | cons a rest =>
      rw [codegenArgs_cons]
      have h1' := cgBlkE a s
      rcases h1 : codegenE a s with ⟨ra, s1⟩
      rw [h1] at h1'
      try simp only [h1]
      cases ra with
      | none => exact h1'
      | some v =>
          have h2' := cgBlkArgs rest s1
          rcases h2 : codegenArgs rest s1 with ⟨rr, s2⟩
          rw [h2] at h2'
          try simp only [h2]
          cases rr with
          | none => exact blkOk_trans h1' h2'
          | some vs => exact blkOk_trans h1' h2'

end

/-- C10: the loop code generated for a `for` is do-while shaped.  For every
`For` node whose code generation succeeds from a structurally wellformed
state: (i) the pre-loop insert block ends with an *unconditional* branch into
the freshly allocated loop header (the end condition is not consulted before
entering the loop), and (ii) some loop-end block ends with the conditional
branch that tests the end condition, taking the back edge to the loop header
and otherwise falling through to the after-loop block (the final insert
block) — so the test sits after the generated body and step, at the bottom of
the loop.  Concretely, for `for i = 1, 0, 1 in i` (end condition already
false at entry) the emitted function consists of an entry block branching
unconditionally into the loop block — which carries the induction phi, the
body, the step `fadd`, and only then the `fcmp` of the end condition — and
executing it visits the loop body once (trace `[0, 1, 2]`) before returning. -/
theorem claim_C10 (vn : String) (st en : ExprAST) (stp : OptExprAST) (bd : ExprAST)
    (s : CGState) (r : Operand) (s2 : CGState)
    (hwf : cgWF s)
    (h : codegenE (.ForExprAST vn st en stp bd) s = (some r, s2)) :
    (∃ instrs, (⟨(codegenE st s).2.curBB, instrs,
        .br (codegenE st s).2.nextBB⟩ : BB) ∈ s2.fnBlocks) ∧
    (∃ endReg endInstrs bodyEndBB,
      (⟨bodyEndBB, endInstrs,
        .condbr (.reg endReg) (codegenE st s).2.nextBB s2.curBB⟩ : BB) ∈
        s2.fnBlocks) ∧
    (codegenFunc forAnon initCG).2.fnBlocks =
      [⟨0, [], .br 1⟩,
       ⟨1, [⟨0, .phi [(.constFP 1, 0), (.reg 1, 1)]⟩,
            ⟨1, .fadd (.reg 0) (.constFP 1)⟩,
            ⟨2, .fcmpONE (.constFP 0) (.constFP 0)⟩],
          .condbr (.reg 2) 1 2⟩,
       ⟨2, [], .ret (.constFP 0)⟩] ∧
    runFn (codegenFunc forAnon initCG).2.fnBlocks [] 9 = some (0, [0, 1, 2]) := by
  rw [codegenE_for] at h
  have hA := cgBlkE st s
  rcases h1 : codegenE st s with ⟨rs, s1⟩
  rw [h1] at hA
  rw [h1] at h
  cases rs with
  | none => simp at h
  | some startV =>
      have hwf1 : cgWF s1 := hA.2.2.2.1 hwf
      have hB := blkOk_forSetup s1 vn startV
      have hwfQ : cgWF (forSetup s1 vn startV).1 := hB.2.2.2.1 hwf1
      have hC := cgBlkE bd (forSetup s1 vn startV).1
      rcases h2 : codegenE bd (forSetup s1 vn startV).1 with ⟨rb, s5⟩
      rw [h2] at hC
      cases rb with
      | none => simp [h2] at h
      | some bv =>
          have hD := cgBlkStep stp s5
          rcases h3 : codegenStep stp s5 with ⟨rp, s6⟩
          rw [h3] at hD
          cases rp with
          | none => simp [h2, h3] at h
          | some stepV =>
              have hE := blkOk_emit s6
                (.fadd (.reg (forSetup s1 vn startV).2.2.1) stepV)
              have hF := cgBlkE en
                (emit s6 (.fadd (.reg (forSetup s1 vn startV).2.2.1) stepV)).2
              rcases h4 : codegenE en
                  (emit s6 (.fadd (.reg (forSetup s1 vn startV).2.2.1) stepV)).2 with
                ⟨rn, s7⟩
              rw [h4] at hF
              cases rn with
              | none => simp [h2, h3, h4] at h
              | some endV =>
                  simp only [h2, h3, h4] at h
                  have hs2 : (forFinish s7 vn (forSetup s1 vn startV).2.1
                      (forSetup s1 vn startV).2.2.1
                      (emit s6 (.fadd (.reg (forSetup s1 vn startV).2.2.1) stepV)).1
                      endV (forSetup s1 vn startV).2.2.2).2 = s2 := by
                    rw [h]
                  have hQ7 : blkOk (forSetup s1 vn startV).1 s7 :=
                    blkOk_trans hC (blkOk_trans hD (blkOk_trans hE hF))
                  have hwf7 : cgWF s7 := hQ7.2.2.2.1 hwfQ
                  refine ⟨?_, ?_, rfl, rfl⟩
                  · obtain ⟨bb0, hbb0m, hbb0id⟩ := hwf1.2.2.2
                    have hm1 : ({ bb0 with term := .br s1.nextBB } : BB) ∈
                        (forSetup s1 vn startV).1.fnBlocks := by
                      rw [forSetup_blocks]
                      refine appendInstrTo_mem_ne _ _ _ _
                        (setTermOf_mem_self _ _ _ bb0
                          (List.mem_append_left _ hbb0m) hbb0id) ?_
                      show bb0.id ≠ s1.nextBB
                      have hlt := hwf1.2.2.1
                      rw [hbb0id]
                      omega
                    have hne1 : ({ bb0 with term := .br s1.nextBB } : BB).id ≠
                        (forSetup s1 vn startV).1.curBB := by
                      show bb0.id ≠ (forSetup s1 vn startV).1.curBB
                      rw [forSetup_curBB, hbb0id]
                      have := hwf1.2.2.1
                      omega
                    have hm7 : ({ bb0 with term := .br s1.nextBB } : BB) ∈
                        s7.fnBlocks := hQ7.2.2.2.2 hwfQ _ hm1 hne1
                    have hneF : ({ bb0 with term := .br s1.nextBB } : BB).id ≠
                        s7.curBB := by
                      show bb0.id ≠ s7.curBB
                      rcases hQ7.2.2.1 with hcc | hcc
                      · rw [hcc, forSetup_curBB, hbb0id]
                        have := hwf1.2.2.1
                        omega
                      · rw [forSetup_nextBB] at hcc
                        have := hwf1.2.2.1
                        rw [hbb0id]
                        omega
                    have hmemF : ({ bb0 with term := .br s1.nextBB } : BB) ∈
                        (forFinish s7 vn (forSetup s1 vn startV).2.1
                          (forSetup s1 vn startV).2.2.1
                          (emit s6 (.fadd (.reg (forSetup s1 vn startV).2.2.1)
                            stepV)).1
                          endV (forSetup s1 vn startV).2.2.2).2.fnBlocks := by
                      rw [forFinish_blocks]
                      refine addIncomingTo_mem_of_fresh _ _ _ _
                        (setTermOf_mem_ne _ _ _ _
                          (List.mem_append_left _
                            (appendInstrTo_mem_ne _ _ _ _ hm7 hneF)) hneF) ?_
                      intro i hi
                      have hri : i.res < s1.nextReg := hwf1.1 bb0 hbb0m i hi
                      rw [forSetup_phiReg]
                      omega
                    rw [hs2] at hmemF
                    have heq : ({ bb0 with term := .br s1.nextBB } : BB) =
                        ⟨s1.curBB, bb0.instrs, .br s1.nextBB⟩ := by
                      rw [← hbb0id]
                    exact ⟨bb0.instrs, heq ▸ hmemF⟩
                  · obtain ⟨bbE, hbbEm, hbbEid⟩ := hwf7.2.2.2
                    have hm1 := appendInstrTo_mem_self s7.fnBlocks s7.curBB
                      ⟨s7.nextReg, .fcmpONE endV (.constFP 0)⟩ bbE hbbEm hbbEid
                    have hm2 : ({ bbE with instrs := bbE.instrs ++
                        [⟨s7.nextReg, .fcmpONE endV (.constFP 0)⟩] } : BB) ∈
                        appendInstrTo s7.fnBlocks s7.curBB
                          ⟨s7.nextReg, .fcmpONE endV (.constFP 0)⟩ ++
                        [⟨s7.nextBB, [], .unterminated⟩] :=
                      List.mem_append_left _ hm1
                    have hm3 := setTermOf_mem_self _ s7.curBB
                      (.condbr (.reg s7.nextReg) (forSetup s1 vn startV).2.1
                        s7.nextBB)
                      _ hm2 hbbEid
                    obtain ⟨is2, hmem⟩ := addIncomingTo_mem_ex _
                      ((forSetup s1 vn startV).2.2.1)
                      (.reg (emit s6 (.fadd (.reg (forSetup s1 vn startV).2.2.1)
                        stepV)).1, s7.curBB) _ hm3
                    rw [← hs2]
                    refine ⟨s7.nextReg, is2, bbE.id, ?_⟩
                    rw [forFinish_blocks]
                    exact hmem

/-- Witness for `claim_C10`: the loop of `for i = 1, 0, 1 in i` generated
inside a fresh entry block. -/
theorem claim_C10_witness :
    cgWF cgC6 ∧
    (∃ instrs, (⟨(codegenE (.NumberExprAST 1) cgC6).2.curBB, instrs,
        .br (codegenE (.NumberExprAST 1) cgC6).2.nextBB⟩ : BB) ∈
      (codegenE (.ForExprAST "i" (.NumberExprAST 1) (.NumberExprAST 0)
        (.someE (.NumberExprAST 1)) (.VariableExprAST "i")) cgC6).2.fnBlocks) := by
  have hwf : cgWF cgC6 := by
    refine ⟨?_, ?_, ?_, ?_⟩
    · intro bb hbb i hi
      simp [cgC6, initCG] at hbb
      subst hbb
      simp at hi
    · intro bb hbb
      simp [cgC6, initCG] at hbb
      subst hbb
      decide
    · decide
    · exact ⟨⟨0, [], .unterminated⟩, by simp [cgC6, initCG], rfl⟩
  refine ⟨hwf, ?_⟩
  exact (claim_C10 "i" (.NumberExprAST 1) (.NumberExprAST 0)
    (.someE (.NumberExprAST 1)) (.VariableExprAST "i") cgC6 (.constFP 0)
    ((codegenE (.ForExprAST "i" (.NumberExprAST 1) (.NumberExprAST 0)
      (.someE (.NumberExprAST 1)) (.VariableExprAST "i")) cgC6).2) hwf rfl).1
